import Mathlib

/-!
Shallow embedding of the temporal rate reconciliation engine of the
`btlz-wb-test` repository.  The embedded source files are
`src/cron/services/DataProcessor.ts` (the reconciler) and
`src/cron/syncRates.ts` (the current-rates read query), together with the
table shapes from `src/postgres/migrations`.

Modelling conventions:
* time instants (JavaScript `Date` values) are integers (`Instant`);
* JavaScript numbers produced by `Number(...)` are `JsNum := Option Rat`,
  where `none` models `NaN` (the result of converting a malformed string)
  and `some q` a finite value; JS comparisons against `NaN` are `false`;
* the three tables are lists of rows inside a `DB` record; the `uuid`
  surrogate keys are natural numbers drawn from a `nextId` counter;
* SQL `UPDATE ... WHERE id = x` is a map over the row list, `INSERT`
  appends, `.first()` takes the head of the filtered list, and the
  foreign-key joins look rows up by id;
* `knex.transaction` is a combinator that discards the tentative state
  when the body ends in an error (rollback) and keeps it on success.
-/

/-- Time instants (JS `Date` values) modelled as integers. -/
abbrev Instant := Int

/-- JS numbers as produced by `Number(...)`: `none` models `NaN`. -/
abbrev JsNum := Option ℚ

/-- JS subtraction: any operand `NaN` yields `NaN`. -/
def jsSub : JsNum → JsNum → JsNum
  | some x, some y => some (x - y)
  | _, _ => none

/-- JS `Math.abs`; `NaN` propagates. -/
def jsAbs : JsNum → JsNum
  | some x => some |x|
  | none => none

/-- JS strict `>` against a finite constant: comparisons with `NaN` are `false`. -/
def jsGt : JsNum → ℚ → Bool
  | some x, c => decide (c < x)
  | none, _ => false

/-- The nine-field numeric rate vector of a `box_rates` row
(`ProcessedBoxRate` in `DataProcessor.ts`). -/
structure RateVec where
  box_delivery_base : JsNum
  box_delivery_coef : JsNum
  box_delivery_liter : JsNum
  box_delivery_marketplace_base : JsNum
  box_delivery_marketplace_coef : JsNum
  box_delivery_marketplace_liter : JsNum
  box_storage_base : JsNum
  box_storage_coef : JsNum
  box_storage_liter : JsNum
deriving Repr, DecidableEq

/-- Builds a rate vector from nine finite rationals. -/
def RateVec.ofRats (a1 a2 a3 a4 a5 a6 a7 a8 a9 : ℚ) : RateVec :=
  ⟨some a1, some a2, some a3, some a4, some a5, some a6, some a7, some a8, some a9⟩

/-- The `fieldsToCompare` list of `checkRatesMatchForWarehouse`
(DataProcessor.ts lines 184-194): pairs of (incoming processed value,
stored db value), in source order. -/
def fieldsToCompare (newRate existing : RateVec) : List (JsNum × JsNum) :=
  [ (newRate.box_delivery_base, existing.box_delivery_base),
    (newRate.box_delivery_coef, existing.box_delivery_coef),
    (newRate.box_delivery_liter, existing.box_delivery_liter),
    (newRate.box_delivery_marketplace_base, existing.box_delivery_marketplace_base),
    (newRate.box_delivery_marketplace_coef, existing.box_delivery_marketplace_coef),
    (newRate.box_delivery_marketplace_liter, existing.box_delivery_marketplace_liter),
    (newRate.box_storage_base, existing.box_storage_base),
    (newRate.box_storage_coef, existing.box_storage_coef),
    (newRate.box_storage_liter, existing.box_storage_liter) ]

/-- The per-field test of the comparator loop (DataProcessor.ts line 197):
`Math.abs(processed - db) > 0.01` signals a mismatch. -/
def fieldMismatch (processed db : JsNum) : Bool :=
  jsGt (jsAbs (jsSub processed db)) (1/100)

/-- A row of the `warehouses` table. -/
structure WarehouseRow where
  id : Nat
  geo_name : String
  warehouse_name : String
deriving Repr, DecidableEq

/-- A row of the `tariff_periods` table; `end_date = none` is SQL `NULL`. -/
structure PeriodRow where
  id : Nat
  start_date : Instant
  end_date : Option Instant
deriving Repr, DecidableEq

/-- A row of the `box_rates` table. -/
structure BoxRateRow where
  id : Nat
  warehouse_id : Nat
  tariff_period_id : Nat
  rates : RateVec
deriving Repr, DecidableEq

/-- The relational store: the three tables plus the surrogate-id counter. -/
structure DB where
  warehouses : List WarehouseRow
  tariff_periods : List PeriodRow
  box_rates : List BoxRateRow
  nextId : Nat
deriving Repr, DecidableEq

/-- `ProcessedWarehouse` of DataProcessor.ts: natural key plus the id filled
in by `processWarehouses`. -/
structure ProcessedWarehouse where
  id : Option Nat
  geo_name : String
  warehouse_name : String
deriving Repr, DecidableEq

/-- `ProcessedBoxRate` of DataProcessor.ts: the vector plus the link ids the
reconciliation loop fills in for `saveBoxRates`. -/
structure ProcessedBoxRate where
  warehouse_id : Option Nat
  tariff_period_id : Option Nat
  rates : RateVec
deriving Repr, DecidableEq

/-- `ProcessedData` of DataProcessor.ts: the parsed snapshot. -/
structure ProcessedData where
  warehouses : List ProcessedWarehouse
  boxRates : List ProcessedBoxRate
  tariffPeriodEndDate : Instant
deriving Repr, DecidableEq

/-- `ProcessResult` of DataProcessor.ts: the per-run summary. -/
structure ProcessResult where
  tariffPeriodsCount : Nat
  warehousesCount : Nat
  boxRatesCount : Nat
deriving Repr, DecidableEq

/-- One record of the upstream snapshot (`WbWarehouseBoxRate`), with the nine
rate fields as locale-formatted strings exactly as the API delivers them. -/
structure WbWarehouseBoxRate where
  boxDeliveryBase : String
  boxDeliveryCoefExpr : String
  boxDeliveryLiter : String
  boxDeliveryMarketplaceBase : String
  boxDeliveryMarketplaceCoefExpr : String
  boxDeliveryMarketplaceLiter : String
  boxStorageBase : String
  boxStorageCoefExpr : String
  boxStorageLiter : String
  geoName : String
  warehouseName : String
deriving Repr, DecidableEq

/-- The upstream snapshot (`WbWarehouseBoxRatesResponse`).  The `dtTillMax`
date string is modelled as an already-parsed instant; `dtNextBox` is unused
by the reconciler and omitted. -/
structure WbWarehouseBoxRatesResponse where
  dtTillMax : Instant
  warehouseList : List WbWarehouseBoxRate
deriving Repr, DecidableEq

/-- JS `s.replace(',', '.')`: only the first comma is replaced. -/
def replaceFirstComma : List Char → List Char
  | [] => []
  | ',' :: rest => '.' :: rest
  | c :: rest => c :: replaceFirstComma rest

/-- String form of `replaceFirstComma`. -/
def replaceCommaStr (s : String) : String :=
  String.mk (replaceFirstComma s.toList)

/-- Value of a digit run read left to right. -/
def digitsToNat (cs : List Char) : Nat :=
  cs.foldl (fun n c => 10 * n + (c.toNat - 48)) 0

/-- Parses an unsigned decimal literal (digits, optional point, digits);
`none` models `NaN`.  This is the decimal fragment of the JS `Number`
grammar; exponents, hex literals and `Infinity` do not occur in the feed
and are not modelled. -/
def parseUnsignedDecimal (cs : List Char) : Option ℚ :=
  let intPart := cs.takeWhile Char.isDigit
  let rest := cs.dropWhile Char.isDigit
  match rest with
  | [] => if intPart.isEmpty then none else some (digitsToNat intPart : ℚ)
  | '.' :: rest2 =>
      let frac := rest2.takeWhile Char.isDigit
      let rest3 := rest2.dropWhile Char.isDigit
      if rest3.isEmpty then
        if intPart.isEmpty && frac.isEmpty then none
        else some ((digitsToNat intPart : ℚ) + (digitsToNat frac : ℚ) / (10 ^ frac.length))
      else none
  | _ => none

/-- Leading- and trailing-whitespace removal, as JS `Number` applies to its
argument. -/
def trimWs (cs : List Char) : List Char :=
  ((cs.dropWhile Char.isWhitespace).reverse.dropWhile Char.isWhitespace).reverse

/-- JS `Number(s)` on the decimal fragment: trimmed, empty string is `0`,
optional sign, otherwise an unsigned decimal literal; `none` is `NaN`. -/
def jsNumber (s : String) : JsNum :=
  match trimWs s.toList with
  | [] => some 0
  | '-' :: rest => (parseUnsignedDecimal rest).map (fun q => -q)
  | '+' :: rest => parseUnsignedDecimal rest
  | cs => parseUnsignedDecimal cs

/-- The field conversion `Number(raw.replace(',', '.'))` applied to every
rate string (DataProcessor.ts lines 43-51). -/
def parseWbField (s : String) : JsNum :=
  jsNumber (replaceCommaStr s)

/-- `convertWbDataToProcessedData` (DataProcessor.ts lines 36-55). -/
def convertWbDataToProcessedData (wbData : WbWarehouseBoxRatesResponse) : ProcessedData :=
  { warehouses := wbData.warehouseList.map (fun w =>
      { id := none, geo_name := w.geoName, warehouse_name := w.warehouseName })
    boxRates := wbData.warehouseList.map (fun w =>
      { warehouse_id := none, tariff_period_id := none
        rates :=
          { box_delivery_base := parseWbField w.boxDeliveryBase
            box_delivery_coef := parseWbField w.boxDeliveryCoefExpr
            box_delivery_liter := parseWbField w.boxDeliveryLiter
            box_delivery_marketplace_base := parseWbField w.boxDeliveryMarketplaceBase
            box_delivery_marketplace_coef := parseWbField w.boxDeliveryMarketplaceCoefExpr
            box_delivery_marketplace_liter := parseWbField w.boxDeliveryMarketplaceLiter
            box_storage_base := parseWbField w.boxStorageBase
            box_storage_coef := parseWbField w.boxStorageCoefExpr
            box_storage_liter := parseWbField w.boxStorageLiter } })
    tariffPeriodEndDate := wbData.dtTillMax }

/-- The open-endedness test of the active-period filter:
`end_date IS NULL OR end_date >= now`. -/
def endCoversB (endDate : Option Instant) (now : Instant) : Bool :=
  match endDate with
  | none => true
  | some e => decide (now ≤ e)

/-- A period is active at `now` iff `start_date <= now` and
(`end_date IS NULL` or `end_date >= now`), as in the locator query. -/
def activeB (p : PeriodRow) (now : Instant) : Bool :=
  decide (p.start_date ≤ now) && endCoversB p.end_date now

/-- Foreign-key lookup of a period row by id. -/
def periodRowById (db : DB) (pid : Nat) : Option PeriodRow :=
  db.tariff_periods.find? (fun p => p.id == pid)

/-- One joined row of the locator query: the period of a `box_rates` row
when the row belongs to the warehouse and its period is active. -/
def locatorCandidate (db : DB) (warehouseId : Nat) (now : Instant) (br : BoxRateRow) :
    Option PeriodRow :=
  if br.warehouse_id == warehouseId then
    match periodRowById db br.tariff_period_id with
    | some tp => if activeB tp now then some tp else none
    | none => none
  else none

/-- `getCurrentPeriodForWarehouse` (DataProcessor.ts lines 144-157):
joins `box_rates` to `tariff_periods`, filters the warehouse and the
activity window, and takes the first row. -/
def getCurrentPeriodForWarehouse (warehouseId : Nat) (now : Instant) (db : DB) :
    Option PeriodRow :=
  (db.box_rates.filterMap (locatorCandidate db warehouseId now)).head?

/-- The `box_rates` lookup of `checkRatesMatchForWarehouse`
(DataProcessor.ts lines 162-176). -/
def findExistingRate (db : DB) (periodId warehouseId : Nat) : Option BoxRateRow :=
  db.box_rates.find? (fun br =>
    br.tariff_period_id == periodId && br.warehouse_id == warehouseId)

/-- `checkRatesMatchForWarehouse` (DataProcessor.ts lines 159-205): `false`
when no stored row exists, otherwise `false` iff some field pair differs by
strictly more than `0.01` under JS arithmetic. -/
def checkRatesMatchForWarehouse (periodId warehouseId : Nat) (newRate : RateVec)
    (db : DB) : Bool :=
  match findExistingRate db periodId warehouseId with
  | none => false
  | some existingRate =>
      (fieldsToCompare newRate existingRate.rates).all
        (fun f => !(fieldMismatch f.1 f.2))

/-- SQL `UPDATE tariff_periods SET end_date = v WHERE id = pid`. -/
def updatePeriodEnd (db : DB) (pid : Nat) (v : Option Instant) : DB :=
  { db with tariff_periods := db.tariff_periods.map (fun p =>
      if p.id == pid then { p with end_date := v } else p) }

/-- SQL `INSERT INTO tariff_periods ... RETURNING *`: appends a fresh row
and returns the new id. -/
def insertPeriod (db : DB) (startDate : Instant) (endDate : Option Instant) :
    DB × Nat :=
  ({ db with
      tariff_periods := db.tariff_periods ++ [⟨db.nextId, startDate, endDate⟩]
      nextId := db.nextId + 1 },
   db.nextId)

/-- One iteration of the per-warehouse loop of `processTariffPeriodsAndRates`
(DataProcessor.ts lines 65-131): skip on missing id; extend on match; close
and reopen on mismatch; create when no period is active.  Returns the store,
the box-rate record with its link ids filled in, and the two count
increments. -/
def processPair (endDate now : Instant) (db : DB) (w : ProcessedWarehouse)
    (r : ProcessedBoxRate) : DB × ProcessedBoxRate × Nat × Nat :=
  match w.id with
  | none => (db, r, 0, 0)
  | some wid =>
    match getCurrentPeriodForWarehouse wid now db with
    | some currentPeriod =>
        if checkRatesMatchForWarehouse currentPeriod.id wid r.rates db then
          (updatePeriodEnd db currentPeriod.id (some endDate),
           { r with warehouse_id := some wid, tariff_period_id := some currentPeriod.id },
           0, 0)
        else
          let db1 := updatePeriodEnd db currentPeriod.id (some now)
          let ins := insertPeriod db1 now (some endDate)
          (ins.1,
           { r with warehouse_id := some wid, tariff_period_id := some ins.2 },
           1, 1)
    | none =>
        let ins := insertPeriod db now (some endDate)
        (ins.1,
         { r with warehouse_id := some wid, tariff_period_id := some ins.2 },
         1, 1)

/-- The whole per-warehouse loop, folded over the paired record lists.
Accumulates the linked box-rate records and the two counters. -/
def processLoop (endDate now : Instant) :
    List (ProcessedWarehouse × ProcessedBoxRate) → DB →
    DB × List ProcessedBoxRate × Nat × Nat
  | [], db => (db, [], 0, 0)
  | (w, r) :: rest, db =>
    match processPair endDate now db w r with
    | (db1, r1, pc1, rc1) =>
      match processLoop endDate now rest db1 with
      | (db2, rs, pc, rc) => (db2, r1 :: rs, pc1 + pc, rc1 + rc)

/-- `processWarehouses` (DataProcessor.ts lines 207-235): looks every record
up by natural key, inserts it on first sight, and fills in its id. -/
def processWarehouses : List ProcessedWarehouse → DB → List ProcessedWarehouse × DB
  | [], db => ([], db)
  | w :: rest, db =>
    match db.warehouses.find? (fun row =>
        row.geo_name == w.geo_name && row.warehouse_name == w.warehouse_name) with
    | some existingWarehouse =>
        match processWarehouses rest db with
        | (rest', db') => ({ w with id := some existingWarehouse.id } :: rest', db')
    | none =>
        let db1 : DB :=
          { db with
              warehouses := db.warehouses ++ [⟨db.nextId, w.geo_name, w.warehouse_name⟩]
              nextId := db.nextId + 1 }
        match processWarehouses rest db1 with
        | (rest', db') => ({ w with id := some db.nextId } :: rest', db')

/-- The upsert of `saveBoxRates` (DataProcessor.ts lines 262-266):
`INSERT ... ON CONFLICT (warehouse_id, tariff_period_id) DO UPDATE` — on
conflict the nine fields of the existing row are merged (overwritten),
otherwise a fresh row is appended. -/
def upsertBoxRate (db : DB) (wid pid : Nat) (v : RateVec) : DB :=
  if db.box_rates.any (fun br => br.warehouse_id == wid && br.tariff_period_id == pid) then
    { db with box_rates := db.box_rates.map (fun br =>
        if br.warehouse_id == wid && br.tariff_period_id == pid then
          { br with rates := v }
        else br) }
  else
    { db with
        box_rates := db.box_rates ++ [⟨db.nextId, wid, pid, v⟩]
        nextId := db.nextId + 1 }

/-- `saveBoxRates` (DataProcessor.ts lines 237-271): upserts every record
whose two link ids were filled in; records with a missing id are skipped. -/
def saveBoxRates : List ProcessedBoxRate → DB → DB
  | [], db => db
  | r :: rest, db =>
    match r.warehouse_id, r.tariff_period_id with
    | some wid, some pid => saveBoxRates rest (upsertBoxRate db wid pid r.rates)
    | _, _ => saveBoxRates rest db

/-- `processTariffPeriodsAndRates` (DataProcessor.ts lines 57-142): runs the
per-warehouse loop, then `saveBoxRates`, and reports the counters together
with the length of the snapshot's warehouse list. -/
def processTariffPeriodsAndRates (pd : ProcessedData) (now : Instant) (db : DB) :
    DB × ProcessResult :=
  match processLoop pd.tariffPeriodEndDate now (pd.warehouses.zip pd.boxRates) db with
  | (db1, rs, pc, rc) =>
    (saveBoxRates rs db1,
     { tariffPeriodsCount := pc, warehousesCount := pd.warehouses.length,
       boxRatesCount := rc })

/-- `knex.transaction`: the callback works on a tentative state; an error
outcome discards it (rollback) while success commits it. -/
def knexTransaction {α : Type} (db : DB)
    (body : DB → DB × Except String α) : DB × Except String α :=
  match body db with
  | (db', Except.ok a) => (db', Except.ok a)
  | (_, Except.error e) => (db, Except.error e)

/-- `transformAndSaveDataToDb` (DataProcessor.ts lines 12-34): converts the
snapshot and runs both phases inside one transaction.  The reference instant
`now` (`new Date()` at line 60) is a parameter.  The embedded store
operations cannot fail, so the catch-and-rewrap branch of the source is
exercised only by the failure-instrumented variant further below. -/
def transformAndSaveDataToDb (wbData : WbWarehouseBoxRatesResponse) (now : Instant)
    (db : DB) : DB × Except String ProcessResult :=
  knexTransaction db (fun trx =>
    let pd := convertWbDataToProcessedData wbData
    match processWarehouses pd.warehouses trx with
    | (ws', trx1) =>
      match processTariffPeriodsAndRates { pd with warehouses := ws' } now trx1 with
      | (trx2, result) => (trx2, Except.ok result))

/-- One row of the current-rates projection of `getDataForGoogleSheets`
(syncRates.ts lines 62-85): the selected warehouse, rate and period columns. -/
structure SheetRow where
  geo_name : String
  warehouse_name : String
  rates : RateVec
  start_date : Instant
  end_date : Option Instant
deriving Repr, DecidableEq

/-- Foreign-key lookup of a warehouse row by id. -/
def warehouseRowById (db : DB) (wid : Nat) : Option WarehouseRow :=
  db.warehouses.find? (fun w => w.id == wid)

/-- The three-way join of the current-rates query:
`box_rates JOIN warehouses JOIN tariff_periods` on the two foreign keys. -/
def joinedSheetRows (db : DB) : List SheetRow :=
  db.box_rates.filterMap (fun br =>
    match warehouseRowById db br.warehouse_id, periodRowById db br.tariff_period_id with
    | some w, some p =>
        some ⟨w.geo_name, w.warehouse_name, br.rates, p.start_date, p.end_date⟩
    | _, _ => none)

/-- SQL ascending order on a numeric column: `NaN` sorts above every finite
value (PostgreSQL numeric ordering). -/
def jsLT : JsNum → JsNum → Bool
  | some x, some y => decide (x < y)
  | some _, none => true
  | none, _ => false

/-- The `ORDER BY box_storage_coef ASC, geo_name ASC` comparison of the
current-rates query. -/
def sheetLE (a b : SheetRow) : Bool :=
  jsLT a.rates.box_storage_coef b.rates.box_storage_coef ||
  (a.rates.box_storage_coef == b.rates.box_storage_coef &&
    decide (a.geo_name ≤ b.geo_name))

/-- `getDataForGoogleSheets` (syncRates.ts lines 55-94): the join filtered to
periods with `end_date IS NULL OR end_date >= now`, ordered by the storage
coefficient and then the region name.  A pure read: it returns rows and
leaves the store untouched. -/
def getDataForGoogleSheets (now : Instant) (db : DB) : List SheetRow :=
  ((joinedSheetRows db).filter (fun r => endCoversB r.end_date now)).mergeSort sheetLE

/-- The body of `transformAndSaveDataToDb` without the transaction wrapper:
convert, resolve warehouses, reconcile periods and rates.  Claims about the
reconciliation algorithm on already-parsed snapshots are stated over this
composition. -/
def reconcileSnapshot (pd : ProcessedData) (now : Instant) (db : DB) :
    DB × ProcessResult :=
  match processWarehouses pd.warehouses db with
  | (ws', db1) => processTariffPeriodsAndRates { pd with warehouses := ws' } now db1

/-- Failure-instrumented per-warehouse loop: the store call made while
processing the record at index `failAt` of the loop rejects with message
`msg`, modelling a database failure in the middle of the batch.  Records
before `failAt` are processed (their tentative writes are in the returned
store) and the error is propagated. -/
def processLoopE (endDate now : Instant) (failAt : Nat) (msg : String) :
    List (ProcessedWarehouse × ProcessedBoxRate) → DB →
    DB × Except String (List ProcessedBoxRate × Nat × Nat)
  | [], db => (db, Except.ok ([], 0, 0))
  | (w, r) :: rest, db =>
    if failAt = 0 then (db, Except.error msg)
    else
      match processPair endDate now db w r with
      | (db1, r1, pc1, rc1) =>
        match processLoopE endDate now (failAt - 1) msg rest db1 with
        | (db2, Except.ok (rs, pc, rc)) =>
            (db2, Except.ok (r1 :: rs, pc1 + pc, rc1 + rc))
        | (db2, Except.error e) => (db2, Except.error e)

/-- Failure-instrumented `transformAndSaveDataToDb`: the whole batch runs
inside one transaction; the catch block wraps any error as
`Data processing failed: <original message>` (DataProcessor.ts line 31) and
the transaction combinator rolls the tentative state back. -/
def transformAndSaveDataToDbE (wbData : WbWarehouseBoxRatesResponse) (now : Instant)
    (failAt : Nat) (msg : String) (db : DB) : DB × Except String ProcessResult :=
  knexTransaction db (fun trx =>
    let pd := convertWbDataToProcessedData wbData
    match processWarehouses pd.warehouses trx with
    | (ws', trx1) =>
      match processLoopE pd.tariffPeriodEndDate now failAt msg (ws'.zip pd.boxRates) trx1 with
      | (trx2, Except.ok (rs, pc, rc)) =>
          (saveBoxRates rs trx2,
           Except.ok { tariffPeriodsCount := pc, warehousesCount := pd.warehouses.length,
                       boxRatesCount := rc })
      | (trx2, Except.error e) =>
          (trx2, Except.error ("Data processing failed: " ++ e)))

/-- A period id is attached to a warehouse when some `box_rates` row binds
the pair. -/
def attachedB (db : DB) (wid pid : Nat) : Bool :=
  db.box_rates.any (fun br => br.warehouse_id == wid && br.tariff_period_id == pid)

/-- Number of tariff periods attached to warehouse `wid` that are active at
instant `t` (the no-overlap observable of the spec's TariffPeriod
invariant). -/
def activeAttachedCount (db : DB) (wid : Nat) (t : Instant) : Nat :=
  db.tariff_periods.countP (fun p => attachedB db wid p.id && activeB p t)

/-- A period is still open after instant `n`: no end, or an end strictly
beyond `n`. -/
def openAfterB (p : PeriodRow) (n : Instant) : Bool :=
  match p.end_date with
  | none => true
  | some e => decide (n < e)

/-- Number of `box_rates` rows of a warehouse. -/
def rateRowCount (db : DB) (wid : Nat) : Nat :=
  db.box_rates.countP (fun br => br.warehouse_id == wid)

/-- Number of periods attached to `wid` whose end date equals `e`. -/
def attachedEndCount (db : DB) (wid : Nat) (e : Instant) : Nat :=
  db.tariff_periods.countP (fun p => attachedB db wid p.id && (p.end_date == some e))

/-- The stored rate vector bound to a (warehouse, period) pair. -/
def ratesAtPair (db : DB) (wid pid : Nat) : Option RateVec :=
  (findExistingRate db pid wid).map (fun br => br.rates)

/-- The part of store well-formedness used by the reconciliation loop:
unique period ids below the counter, foreign keys below the counter, the
unique `(warehouse_id, tariff_period_id)` pair of `box_rates`, and the
design assumption that a tariff period belongs to (at most) one
warehouse. -/
structure MidWF (db : DB) : Prop where
  pid_nodup : (db.tariff_periods.map (fun p => p.id)).Nodup
  pid_lt : ∀ p ∈ db.tariff_periods, p.id < db.nextId
  br_lt : ∀ br ∈ db.box_rates, br.warehouse_id < db.nextId ∧ br.tariff_period_id < db.nextId
  pair_nodup : (db.box_rates.map (fun br => (br.warehouse_id, br.tariff_period_id))).Nodup
  no_share : ∀ br1 ∈ db.box_rates, ∀ br2 ∈ db.box_rates,
      br1.tariff_period_id = br2.tariff_period_id → br1.warehouse_id = br2.warehouse_id

/-- Full well-formedness: `MidWF` together with the unique surrogate ids
and the unique natural key of the `warehouses` table. -/
structure WF (db : DB) extends MidWF db : Prop where
  wid_nodup : (db.warehouses.map (fun w => w.id)).Nodup
  wkey_nodup : (db.warehouses.map (fun w => (w.geo_name, w.warehouse_name))).Nodup
  wid_lt : ∀ w ∈ db.warehouses, w.id < db.nextId

/-- A period id that is attached to warehouse `wid` and whose row is active
at `t`. -/
def ActivePidAt (db : DB) (wid pid : Nat) (t : Instant) : Prop :=
  attachedB db wid pid = true ∧
  ∃ p, periodRowById db pid = some p ∧ activeB p t = true

/-- What one iteration of the reconciliation loop run against store `db`
guarantees about the final store `dbF` and the linked record `r1`: the three
branches of the algorithm (extend / rollover / create), each with the end
state of the rows it touched and the unchanged rows of the same
warehouse. -/
def RecordPost (endDate now : Instant) (db dbF : DB)
    (wr : ProcessedWarehouse × ProcessedBoxRate) (r1 : ProcessedBoxRate) : Prop :=
  match wr.1.id with
  | none => r1 = wr.2
  | some wid =>
    r1.rates = wr.2.rates ∧ r1.warehouse_id = some wid ∧
    ∃ pid, r1.tariff_period_id = some pid ∧
      ((∃ p0, getCurrentPeriodForWarehouse wid now db = some p0 ∧
          checkRatesMatchForWarehouse p0.id wid wr.2.rates db = true ∧
          pid = p0.id ∧
          periodRowById dbF pid = some { p0 with end_date := some endDate } ∧
          (∀ pid', attachedB db wid pid' = true → pid' ≠ p0.id →
            periodRowById dbF pid' = periodRowById db pid')) ∨
       (∃ p0, getCurrentPeriodForWarehouse wid now db = some p0 ∧
          checkRatesMatchForWarehouse p0.id wid wr.2.rates db = false ∧
          db.nextId ≤ pid ∧
          periodRowById dbF p0.id = some { p0 with end_date := some now } ∧
          periodRowById dbF pid = some ⟨pid, now, some endDate⟩ ∧
          (∀ pid', attachedB db wid pid' = true → pid' ≠ p0.id →
            periodRowById dbF pid' = periodRowById db pid')) ∨
       (getCurrentPeriodForWarehouse wid now db = none ∧
          db.nextId ≤ pid ∧
          periodRowById dbF pid = some ⟨pid, now, some endDate⟩ ∧
          (∀ pid', attachedB db wid pid' = true →
            periodRowById dbF pid' = periodRowById db pid')))

/-- Temporal sanity of one warehouse's attached periods relative to a bound
`n` (all instants at which earlier batches ran are at most `n`): every
attached period started by `n`, and at most one attached period is still
open after `n`. -/
structure WInv (db : DB) (wid : Nat) (n : Instant) : Prop where
  start_le : ∀ p ∈ db.tariff_periods, attachedB db wid p.id = true → p.start_date ≤ n
  open_unique : ∀ p1 ∈ db.tariff_periods, ∀ p2 ∈ db.tariff_periods,
      attachedB db wid p1.id = true → openAfterB p1 n = true →
      attachedB db wid p2.id = true → openAfterB p2 n = true → p1.id = p2.id

/-- The natural key of a snapshot record. -/
def pwKey (w : ProcessedWarehouse) : String × String :=
  (w.geo_name, w.warehouse_name)

/-- A small well-formed store used by witnesses: warehouse 0 with natural
key ("A", "W"), period 1 covering `[0, 100]`, and one rate row binding them
with vector `exVec`. -/
def exVec : RateVec := RateVec.ofRats 10 1 1 1 1 1 1 1 1

/-- A vector within the 0.01 tolerance of `exVec` (first field differs by
exactly 0.01). -/
def exVecClose : RateVec := RateVec.ofRats (1001/100) 1 1 1 1 1 1 1 1

/-- A vector beyond the tolerance of `exVec` (first field differs by 1). -/
def exVecFar : RateVec := RateVec.ofRats 11 1 1 1 1 1 1 1 1

/-- Example warehouse row. -/
def exWarehouse : WarehouseRow := ⟨0, "A", "W"⟩

/-- Example period row, active on `[0, 100]`. -/
def exPeriod : PeriodRow := ⟨1, 0, some 100⟩

/-- Example rate row binding warehouse 0 to period 1. -/
def exRateRow : BoxRateRow := ⟨2, 0, 1, exVec⟩

/-- The example store. -/
def exDb : DB := ⟨[exWarehouse], [exPeriod], [exRateRow], 3⟩

/-- An upstream record for the same warehouse whose first rate field "11"
differs from the stored 10 by more than the tolerance. -/
def exWbRecordFar : WbWarehouseBoxRate :=
  ⟨"11", "1", "1", "1", "1", "1", "1", "1", "1", "A", "W"⟩

/-- A snapshot carrying `exWbRecordFar` with horizon 200. -/
def exWbFar : WbWarehouseBoxRatesResponse := ⟨200, [exWbRecordFar]⟩

/-- An upstream record whose first field "10,01" is within the tolerance of
the stored 10 but not equal to it. -/
def exWbRecordClose : WbWarehouseBoxRate :=
  ⟨"10,01", "1", "1", "1", "1", "1", "1", "1", "1", "A", "W"⟩

/-- A snapshot carrying `exWbRecordClose` with horizon 200. -/
def exWbClose : WbWarehouseBoxRatesResponse := ⟨200, [exWbRecordClose]⟩

/-- An upstream record whose first rate field is malformed. -/
def exWbRecordBad : WbWarehouseBoxRate :=
  ⟨"abc", "1", "1", "1", "1", "1", "1", "1", "1", "A", "W"⟩

/-- A snapshot carrying `exWbRecordBad` with horizon 200. -/
def exWbBad : WbWarehouseBoxRatesResponse := ⟨200, [exWbRecordBad]⟩

/-- An upstream record with a natural key ("B", "V") absent from `exDb`. -/
def exWbRecordNew : WbWarehouseBoxRate :=
  ⟨"10", "1", "1", "1", "1", "1", "1", "1", "1", "B", "V"⟩

/-- A snapshot carrying `exWbRecordNew` with horizon 200. -/
def exWbNew : WbWarehouseBoxRatesResponse := ⟨200, [exWbRecordNew]⟩

/-- An upstream record for the stored warehouse carrying exactly the stored
vector `exVec`. -/
def exWbRecordSame : WbWarehouseBoxRate :=
  ⟨"10", "1", "1", "1", "1", "1", "1", "1", "1", "A", "W"⟩

/-- A snapshot carrying `exWbRecordSame` with horizon 200 (the already
stored period of `exDb` ends at 100, as a first run with horizon 100 would
have left it). -/
def exWbSame : WbWarehouseBoxRatesResponse := ⟨200, [exWbRecordSame]⟩

/-! Theorems.  First the shared small lemmas, then the claim theorems. -/

lemma checkRates_eq_all (periodId warehouseId : Nat) (nr : RateVec) (db : DB)
    (e : BoxRateRow) (hfind : findExistingRate db periodId warehouseId = some e) :
    checkRatesMatchForWarehouse periodId warehouseId nr db =
      (fieldsToCompare nr e.rates).all (fun f => !(fieldMismatch f.1 f.2)) := by
  unfold checkRatesMatchForWarehouse
  rw [hfind]

/-- C2: confirmed.  With finite stored and incoming vectors, the comparator
returns true iff every one of the nine fields differs by at most 0.01 in
absolute value, and false iff some field differs by strictly more than
0.01; a difference of exactly 0.01 counts as a match. -/
theorem c2_comparator_tolerance_iff
    (db : DB) (periodId warehouseId : Nat) (e : BoxRateRow)
    (a1 a2 a3 a4 a5 a6 a7 a8 a9 b1 b2 b3 b4 b5 b6 b7 b8 b9 : ℚ)
    (hfind : findExistingRate db periodId warehouseId = some e)
    (hex : e.rates = RateVec.ofRats b1 b2 b3 b4 b5 b6 b7 b8 b9) :
    (checkRatesMatchForWarehouse periodId warehouseId
        (RateVec.ofRats a1 a2 a3 a4 a5 a6 a7 a8 a9) db = true ↔
      (|b1 - a1| ≤ 1/100 ∧ |b2 - a2| ≤ 1/100 ∧ |b3 - a3| ≤ 1/100 ∧
       |b4 - a4| ≤ 1/100 ∧ |b5 - a5| ≤ 1/100 ∧ |b6 - a6| ≤ 1/100 ∧
       |b7 - a7| ≤ 1/100 ∧ |b8 - a8| ≤ 1/100 ∧ |b9 - a9| ≤ 1/100)) ∧
    (checkRatesMatchForWarehouse periodId warehouseId
        (RateVec.ofRats a1 a2 a3 a4 a5 a6 a7 a8 a9) db = false ↔
      (1/100 < |b1 - a1| ∨ 1/100 < |b2 - a2| ∨ 1/100 < |b3 - a3| ∨
       1/100 < |b4 - a4| ∨ 1/100 < |b5 - a5| ∨ 1/100 < |b6 - a6| ∨
       1/100 < |b7 - a7| ∨ 1/100 < |b8 - a8| ∨ 1/100 < |b9 - a9|)) := by
  have h := checkRates_eq_all periodId warehouseId
    (RateVec.ofRats a1 a2 a3 a4 a5 a6 a7 a8 a9) db e hfind
  rw [hex] at h
  have hmain : checkRatesMatchForWarehouse periodId warehouseId
      (RateVec.ofRats a1 a2 a3 a4 a5 a6 a7 a8 a9) db = true ↔
      (|b1 - a1| ≤ 1/100 ∧ |b2 - a2| ≤ 1/100 ∧ |b3 - a3| ≤ 1/100 ∧
       |b4 - a4| ≤ 1/100 ∧ |b5 - a5| ≤ 1/100 ∧ |b6 - a6| ≤ 1/100 ∧
       |b7 - a7| ≤ 1/100 ∧ |b8 - a8| ≤ 1/100 ∧ |b9 - a9| ≤ 1/100) := by
    rw [h]
    simp [fieldsToCompare, RateVec.ofRats, fieldMismatch, jsSub, jsAbs, jsGt,
      abs_sub_comm, not_lt]
  refine ⟨hmain, ?_⟩
  rw [Bool.eq_false_iff, Ne, hmain]
  simp only [not_and_or, not_le]

theorem c2_comparator_tolerance_iff_witness :
    checkRatesMatchForWarehouse 1 0 exVecClose exDb = true :=
  ((c2_comparator_tolerance_iff exDb 1 0 exRateRow
      (1001/100) 1 1 1 1 1 1 1 1 10 1 1 1 1 1 1 1 1 rfl rfl).1).mpr (by norm_num [abs_le])

lemma processWarehouses_fst_length (ws : List ProcessedWarehouse) (db : DB) :
    (processWarehouses ws db).1.length = ws.length := by
  induction ws generalizing db with
  | nil => rfl
  | cons w rest ih =>
    simp only [processWarehouses]
    cases hfind : db.warehouses.find? (fun row =>
        row.geo_name == w.geo_name && row.warehouse_name == w.warehouse_name) with
    | some ex =>
      cases hrec : processWarehouses rest db with
      | mk rest' db' =>
        have h2 := ih db
        rw [hrec] at h2
        simpa using h2
    | none =>
      cases hrec : processWarehouses rest
          { db with
              warehouses := db.warehouses ++ [⟨db.nextId, w.geo_name, w.warehouse_name⟩]
              nextId := db.nextId + 1 } with
      | mk rest' db' =>
        have h2 := ih { db with
              warehouses := db.warehouses ++ [⟨db.nextId, w.geo_name, w.warehouse_name⟩]
              nextId := db.nextId + 1 }
        rw [hrec] at h2
        simpa using h2

lemma transformAndSaveDataToDb_eq (wb : WbWarehouseBoxRatesResponse) (now : Instant)
    (db : DB) :
    transformAndSaveDataToDb wb now db =
      ((reconcileSnapshot (convertWbDataToProcessedData wb) now db).1,
       Except.ok (reconcileSnapshot (convertWbDataToProcessedData wb) now db).2) := by
  unfold transformAndSaveDataToDb knexTransaction reconcileSnapshot
  cases hpw : processWarehouses (convertWbDataToProcessedData wb).warehouses db with
  | mk ws' db1 =>
    cases hpt : processTariffPeriodsAndRates
        { convertWbDataToProcessedData wb with warehouses := ws' } now db1 with
    | mk db2 result => simp [hpw, hpt]

lemma processTariffPeriodsAndRates_warehousesCount (pd : ProcessedData) (now : Instant)
    (db : DB) :
    (processTariffPeriodsAndRates pd now db).2.warehousesCount = pd.warehouses.length := by
  unfold processTariffPeriodsAndRates
  cases hl : processLoop pd.tariffPeriodEndDate now (pd.warehouses.zip pd.boxRates) db with
  | mk db1 rest =>
    cases rest with
    | mk rs cnts => cases cnts with
      | mk pc rc => rfl

/-- C10: confirmed.  For every snapshot, `transformAndSaveDataToDb` succeeds
with a summary whose `warehousesCount` equals the length of the snapshot's
warehouse list, independent of what each record did. -/
theorem c10_warehouses_count (wb : WbWarehouseBoxRatesResponse) (now : Instant) (db : DB) :
    ∃ r : ProcessResult, (transformAndSaveDataToDb wb now db).2 = Except.ok r ∧
      r.warehousesCount = wb.warehouseList.length := by
  rw [transformAndSaveDataToDb_eq]
  refine ⟨_, rfl, ?_⟩
  unfold reconcileSnapshot
  cases hpw : processWarehouses (convertWbDataToProcessedData wb).warehouses db with
  | mk ws' db1 =>
    rw [processTariffPeriodsAndRates_warehousesCount]
    have hlen : ws'.length = (convertWbDataToProcessedData wb).warehouses.length := by
      have := processWarehouses_fst_length (convertWbDataToProcessedData wb).warehouses db
      rw [hpw] at this
      simpa using this
    simpa [convertWbDataToProcessedData] using hlen

lemma jsLT_trans (a b c : JsNum) (h1 : jsLT a b = true) (h2 : jsLT b c = true) :
    jsLT a c = true := by
  cases a <;> cases b <;> cases c <;> simp_all [jsLT]
  exact lt_trans h1 h2

lemma jsLT_total (x y : JsNum) : jsLT x y = true ∨ jsLT y x = true ∨ x = y := by
  cases x with
  | none =>
    cases y with
    | none => exact Or.inr (Or.inr rfl)
    | some q => exact Or.inr (Or.inl rfl)
  | some p =>
    cases y with
    | none => exact Or.inl rfl
    | some q =>
      rcases lt_trichotomy p q with h | h | h
      · exact Or.inl (by simp [jsLT, h])
      · exact Or.inr (Or.inr (by rw [h]))
      · exact Or.inr (Or.inl (by simp [jsLT, h]))

lemma sheetLE_trans (a b c : SheetRow) (h1 : sheetLE a b = true)
    (h2 : sheetLE b c = true) : sheetLE a c = true := by
  unfold sheetLE at h1 h2 ⊢
  rcases (Bool.or_eq_true _ _).mp h1 with hlt1 | heq1
  · rcases (Bool.or_eq_true _ _).mp h2 with hlt2 | heq2
    · exact (Bool.or_eq_true _ _).mpr (Or.inl (jsLT_trans _ _ _ hlt1 hlt2))
    · obtain ⟨he, hg⟩ := (Bool.and_eq_true _ _).mp heq2
      have hbc : b.rates.box_storage_coef = c.rates.box_storage_coef := by simpa using he
      rw [← hbc]
      exact (Bool.or_eq_true _ _).mpr (Or.inl hlt1)
  · obtain ⟨he1, hg1⟩ := (Bool.and_eq_true _ _).mp heq1
    have hab : a.rates.box_storage_coef = b.rates.box_storage_coef := by simpa using he1
    rcases (Bool.or_eq_true _ _).mp h2 with hlt2 | heq2
    · rw [hab]
      exact (Bool.or_eq_true _ _).mpr (Or.inl hlt2)
    · obtain ⟨he2, hg2⟩ := (Bool.and_eq_true _ _).mp heq2
      have hbc : b.rates.box_storage_coef = c.rates.box_storage_coef := by simpa using he2
      refine (Bool.or_eq_true _ _).mpr (Or.inr ((Bool.and_eq_true _ _).mpr ⟨?_, ?_⟩))
      · simp [hab, hbc]
      · simp only [decide_eq_true_eq] at hg1 hg2 ⊢
        exact le_trans hg1 hg2

lemma sheetLE_total (a b : SheetRow) : (sheetLE a b || sheetLE b a) = true := by
  rcases jsLT_total a.rates.box_storage_coef b.rates.box_storage_coef with h | h | h
  · simp [sheetLE, h]
  · simp [sheetLE, h]
  · rcases le_total a.geo_name b.geo_name with hg | hg <;> simp [sheetLE, h, hg]

/-- C6: confirmed.  The current-rates read returns exactly the joined rows
whose period has no end or an end at or after `now`, sorted by the storage
coefficient ascending and then by region name ascending; being a pure
function of the store, it performs no mutation. -/
theorem c6_current_rates_query (now : Instant) (db : DB) :
    (∀ r : SheetRow, r ∈ getDataForGoogleSheets now db ↔
        (r ∈ joinedSheetRows db ∧ endCoversB r.end_date now = true)) ∧
    List.Pairwise (fun a b => sheetLE a b = true) (getDataForGoogleSheets now db) := by
  constructor
  · intro r
    unfold getDataForGoogleSheets
    rw [(List.mergeSort_perm _ sheetLE).mem_iff, List.mem_filter]
  · exact List.sorted_mergeSort (fun a b c => sheetLE_trans a b c) sheetLE_total _

lemma knexTransaction_of_error {α : Type} (db : DB) (body : DB → DB × Except String α)
    (db' : DB) (e : String) (h : body db = (db', Except.error e)) :
    knexTransaction db body = (db, Except.error e) := by
  unfold knexTransaction
  rw [h]

lemma processLoopE_fails (endDate now : Instant) (msg : String) :
    ∀ (L : List (ProcessedWarehouse × ProcessedBoxRate)) (failAt : Nat) (db : DB),
      failAt < L.length →
      ∃ db', processLoopE endDate now failAt msg L db = (db', Except.error msg) := by
  intro L
  induction L with
  | nil => intro failAt db h; simp at h
  | cons p rest ih =>
    intro failAt db h
    obtain ⟨w, r⟩ := p
    by_cases h0 : failAt = 0
    · subst h0
      exact ⟨db, by simp [processLoopE]⟩
    · cases hp : processPair endDate now db w r with
      | mk db1 rest1 =>
        obtain ⟨r1, pc1, rc1⟩ := rest1
        obtain ⟨db'', hdb⟩ := ih (failAt - 1) db1 (by
          simp only [List.length_cons] at h
          omega)
        refine ⟨db'', ?_⟩
        simp [processLoopE, h0, hp, hdb]

/-- C5: confirmed.  If any store operation fails while processing any
record of the batch, the failure-instrumented run leaves the store exactly
as it was (full rollback of every earlier write of the batch) and surfaces
one error wrapping the original message. -/
theorem c5_batch_rollback_wraps_error
    (wb : WbWarehouseBoxRatesResponse) (now : Instant) (db : DB)
    (failAt : Nat) (msg : String)
    (hlt : failAt < wb.warehouseList.length) :
    transformAndSaveDataToDbE wb now failAt msg db =
      (db, Except.error ("Data processing failed: " ++ msg)) := by
  unfold transformAndSaveDataToDbE
  cases hpw : processWarehouses (convertWbDataToProcessedData wb).warehouses db with
  | mk ws' trx1 =>
    have hzlen : (ws'.zip (convertWbDataToProcessedData wb).boxRates).length =
        wb.warehouseList.length := by
      have h1 : ws'.length = (convertWbDataToProcessedData wb).warehouses.length := by
        have := processWarehouses_fst_length (convertWbDataToProcessedData wb).warehouses db
        rw [hpw] at this
        simpa using this
      simp [h1, convertWbDataToProcessedData]
    obtain ⟨db', hrun⟩ := processLoopE_fails (convertWbDataToProcessedData wb).tariffPeriodEndDate
      now msg (ws'.zip (convertWbDataToProcessedData wb).boxRates) failAt trx1
      (by rw [hzlen]; exact hlt)
    exact knexTransaction_of_error _ _ db' _ (by simp [hpw, hrun])

theorem c5_batch_rollback_wraps_error_witness :
    transformAndSaveDataToDbE exWbFar 50 0 "connection lost" exDb =
      (exDb, Except.error ("Data processing failed: " ++ "connection lost")) :=
  c5_batch_rollback_wraps_error exWbFar 50 exDb 0 "connection lost" (by decide)

/-- C9 counterexample: a snapshot whose first rate field is the malformed
string "abc" is not rejected — the batch succeeds and the `NaN` (modelled
as `none`) is written into the store. -/
theorem c9_malformed_not_rejected_counterexample :
    parseWbField "abc" = none ∧
    (transformAndSaveDataToDb exWbBad 50 exDb).2 =
      Except.ok { tariffPeriodsCount := 0, warehousesCount := 1, boxRatesCount := 0 } ∧
    ratesAtPair (transformAndSaveDataToDb exWbBad 50 exDb).1 0 1 =
      some ⟨none, some 1, some 1, some 1, some 1, some 1, some 1, some 1, some 1⟩ :=
  ⟨by with_unfolding_all rfl, by with_unfolding_all rfl, by with_unfolding_all rfl⟩

/-- C9: corrected.  Fields are normalized by `Number(s.replace(',', '.'))`,
but a malformed string is not rejected batch-fatally: it becomes `NaN`,
which the comparator never flags as a mismatch in either direction, so it
flows silently into the comparison and storage path (see the
counterexample). -/
theorem c9_malformed_silently_coerced (s : String)
    (hs : jsNumber (replaceCommaStr s) = none) (v : JsNum) :
    parseWbField s = none ∧
    fieldMismatch (parseWbField s) v = false ∧
    fieldMismatch v (parseWbField s) = false := by
  have hp : parseWbField s = none := hs
  refine ⟨hp, ?_, ?_⟩ <;>
    (rw [hp]; cases v <;> simp [fieldMismatch, jsSub, jsAbs, jsGt])

theorem c9_malformed_silently_coerced_witness :
    parseWbField "abc" = none ∧
    fieldMismatch (parseWbField "abc") (some 10) = false ∧
    fieldMismatch (some 10) (parseWbField "abc") = false :=
  c9_malformed_silently_coerced "abc" (by decide) (some 10)

/-- C1 counterexample: a rollover run at `now = 50` over the well-formed
example store takes warehouse 0 from one active attached period to two at
the batch's own reference instant — the closed period ends at 50
inclusively while the new one starts at 50. -/
theorem c1_overlap_at_now_counterexample :
    WF exDb ∧
    activeAttachedCount exDb 0 50 = 1 ∧
    activeAttachedCount (transformAndSaveDataToDb exWbFar 50 exDb).1 0 50 = 2 :=
  ⟨⟨⟨by decide, by decide, by decide, by decide, by decide⟩, by decide, by decide, by decide⟩,
   by with_unfolding_all rfl, by with_unfolding_all rfl⟩

/-- C8 counterexample: a within-tolerance change ("10,01" against stored
10) leaves the period bound and the upsert merges the incoming vector over
the existing `(warehouse_id, tariff_period_id)` row: the stored nine fields
change after creation with no new row reported. -/
theorem c8_merge_overwrite_counterexample :
    WF exDb ∧
    ratesAtPair exDb 0 1 = some exVec ∧
    (transformAndSaveDataToDb exWbClose 50 exDb).2 =
      Except.ok { tariffPeriodsCount := 0, warehousesCount := 1, boxRatesCount := 0 } ∧
    ratesAtPair (transformAndSaveDataToDb exWbClose 50 exDb).1 0 1 = some exVecClose ∧
    exVecClose ≠ exVec := by
  refine ⟨⟨⟨by decide, by decide, by decide, by decide, by decide⟩, by decide, by decide, by decide⟩,
    by with_unfolding_all rfl, by with_unfolding_all rfl, by with_unfolding_all rfl, ?_⟩
  intro h
  have h1 := congrArg (fun v => v.box_delivery_base) h
  simp [exVecClose, exVec, RateVec.ofRats] at h1
  norm_num at h1
lemma attachedB_congr {db db' : DB} (h : db'.box_rates = db.box_rates) (wid pid : Nat) :
    attachedB db' wid pid = attachedB db wid pid := by
  unfold attachedB
  rw [h]

lemma checkRates_congr {db db' : DB} (h : db'.box_rates = db.box_rates)
    (pid wid : Nat) (nr : RateVec) :
    checkRatesMatchForWarehouse pid wid nr db' = checkRatesMatchForWarehouse pid wid nr db := by
  unfold checkRatesMatchForWarehouse findExistingRate
  rw [h]

lemma periodRowById_mem {db : DB} {pid : Nat} {p : PeriodRow}
    (h : periodRowById db pid = some p) : p ∈ db.tariff_periods ∧ p.id = pid := by
  unfold periodRowById at h
  refine ⟨List.mem_of_find?_eq_some h, ?_⟩
  have := List.find?_some h
  simpa using this

lemma find?_id_nodup {l : List PeriodRow} (hnd : (l.map (fun p => p.id)).Nodup)
    {p : PeriodRow} (hp : p ∈ l) : l.find? (fun q => q.id == p.id) = some p := by
  induction l with
  | nil => cases hp
  | cons a l ih =>
    rcases List.mem_cons.mp hp with rfl | hp'
    · simp [List.find?_cons]
    · have hnd' : ((a :: l).map (fun p => p.id)).Nodup := hnd
      rw [List.map_cons, List.nodup_cons] at hnd'
      have ha : ¬(a.id == p.id) = true := by
        simp only [beq_iff_eq]
        intro he
        exact hnd'.1 (he ▸ List.mem_map_of_mem (fun q => q.id) hp')
      rw [List.find?_cons]
      simp only [Bool.not_eq_true] at ha
      rw [ha]
      exact ih hnd'.2 hp'

lemma periodRowById_self {db : DB} (hnd : (db.tariff_periods.map (fun p => p.id)).Nodup)
    {p : PeriodRow} (hp : p ∈ db.tariff_periods) : periodRowById db p.id = some p :=
  find?_id_nodup hnd hp

lemma periodRowById_updatePeriodEnd (db : DB) (pid : Nat) (v : Option Instant) (pid' : Nat) :
    periodRowById (updatePeriodEnd db pid v) pid' =
      (periodRowById db pid').map
        (fun p => if p.id == pid then { p with end_date := v } else p) := by
  unfold periodRowById updatePeriodEnd
  rw [List.find?_map]
  have hpred : ((fun q => q.id == pid') ∘
      (fun p => if p.id == pid then { p with end_date := v } else p)) =
      (fun p : PeriodRow => p.id == pid') := by
    funext p
    by_cases h : (p.id == pid) = true <;> simp [Function.comp, h]
  rw [hpred]

lemma periodRowById_update_ne {db : DB} {pid pid' : Nat} (v : Option Instant)
    (h : pid' ≠ pid) :
    periodRowById (updatePeriodEnd db pid v) pid' = periodRowById db pid' := by
  rw [periodRowById_updatePeriodEnd]
  cases hrow : periodRowById db pid' with
  | none => rfl
  | some p =>
    have hid := (periodRowById_mem hrow).2
    have : ¬(p.id == pid) = true := by simp [hid, h]
    simp [Option.map, this]

lemma periodRowById_update_self {db : DB} {pid : Nat} {p : PeriodRow} (v : Option Instant)
    (hrow : periodRowById db pid = some p) :
    periodRowById (updatePeriodEnd db pid v) pid = some { p with end_date := v } := by
  rw [periodRowById_updatePeriodEnd, hrow]
  have hid := (periodRowById_mem hrow).2
  simp [Option.map, hid]

lemma periodRowById_insert_ne {db : DB} (s : Instant) (e : Option Instant) {pid' : Nat}
    (h : pid' ≠ db.nextId) :
    periodRowById (insertPeriod db s e).1 pid' = periodRowById db pid' := by
  unfold periodRowById insertPeriod
  rw [List.find?_append]
  have : List.find? (fun q => q.id == pid') [(⟨db.nextId, s, e⟩ : PeriodRow)] = none := by
    have hne : ¬(db.nextId == pid') = true := by simp [Ne.symm h]
    simp only [List.find?]
    rw [Bool.not_eq_true] at hne
    rw [hne]
  rw [this, Option.or_none]

lemma periodRowById_insert_self {db : DB} (s : Instant) (e : Option Instant)
    (hlt : ∀ p ∈ db.tariff_periods, p.id < db.nextId) :
    periodRowById (insertPeriod db s e).1 db.nextId = some ⟨db.nextId, s, e⟩ := by
  unfold periodRowById insertPeriod
  rw [List.find?_append]
  have h1 : List.find? (fun q => q.id == db.nextId) db.tariff_periods = none := by
    rw [List.find?_eq_none]
    intro p hp
    simp only [beq_iff_eq]
    exact Nat.ne_of_lt (hlt p hp)
  rw [h1]
  simp [List.find?]

lemma MidWF.updateEnd {db : DB} (h : MidWF db) (pid : Nat) (v : Option Instant) :
    MidWF (updatePeriodEnd db pid v) := by
  have hids : ((updatePeriodEnd db pid v).tariff_periods.map (fun p => p.id)) =
      (db.tariff_periods.map (fun p => p.id)) := by
    unfold updatePeriodEnd
    simp only [List.map_map]
    apply List.map_congr_left
    intro p _
    by_cases hc : (p.id == pid) = true <;> simp [Function.comp, hc]
  refine ⟨?_, ?_, h.br_lt, h.pair_nodup, h.no_share⟩
  · rw [hids]; exact h.pid_nodup
  · intro p hp
    unfold updatePeriodEnd at hp
    simp only [List.mem_map] at hp
    obtain ⟨q, hq, rfl⟩ := hp
    have := h.pid_lt q hq
    by_cases hc : (q.id == pid) = true <;> simp [hc] <;> exact this

lemma MidWF.insert {db : DB} (h : MidWF db) (s : Instant) (e : Option Instant) :
    MidWF (insertPeriod db s e).1 := by
  refine ⟨?_, ?_, ?_, h.pair_nodup, h.no_share⟩
  · unfold insertPeriod
    simp only [List.map_append, List.map_cons, List.map_nil]
    rw [List.nodup_append]
    refine ⟨h.pid_nodup, List.nodup_singleton _, ?_⟩
    intro x hx
    simp only [List.mem_map] at hx
    obtain ⟨p, hp, rfl⟩ := hx
    simp only [List.mem_singleton]
    exact fun hc => absurd (hc ▸ h.pid_lt p hp) (lt_irrefl _)
  · intro p hp
    unfold insertPeriod at hp
    simp only [List.mem_append, List.mem_singleton] at hp
    rcases hp with hp | rfl
    · exact Nat.lt_succ_of_lt (h.pid_lt p hp)
    · exact Nat.lt_succ_self _
  · intro br hbr
    have := h.br_lt br hbr
    exact ⟨Nat.lt_succ_of_lt this.1, Nat.lt_succ_of_lt this.2⟩

lemma locatorCandidate_eq_some {db : DB} {wid : Nat} {now : Instant}
    {br : BoxRateRow} {q : PeriodRow} :
    locatorCandidate db wid now br = some q ↔
      br.warehouse_id = wid ∧ periodRowById db br.tariff_period_id = some q ∧
        activeB q now = true := by
  unfold locatorCandidate
  by_cases hw : (br.warehouse_id == wid) = true
  · rw [if_pos hw]
    cases hrow : periodRowById db br.tariff_period_id with
    | none =>
      constructor
      · intro h
        exact absurd h (by simp)
      · rintro ⟨-, h2, -⟩
        cases h2
    | some tp =>
      by_cases hact : activeB tp now = true
      · constructor
        · intro h
          have h2 : some tp = some q := by simpa [hact] using h
          injection h2 with h2
          subst h2
          exact ⟨by simpa using hw, rfl, hact⟩
        · rintro ⟨-, h2, -⟩
          injection h2 with h2
          subst h2
          simp [hact]
      · constructor
        · intro h
          simp [hact] at h
        · rintro ⟨-, h2, h3⟩
          injection h2 with h2
          subst h2
          exact absurd h3 hact
  · rw [if_neg hw]
    constructor
    · intro h
      cases h
    · rintro ⟨h1, -, -⟩
      exact absurd (by simp [h1]) hw

lemma getCurrentPeriod_congr {db db' : DB} (wid : Nat) (now : Instant)
    (hbr : db'.box_rates = db.box_rates)
    (hper : ∀ br ∈ db.box_rates, br.warehouse_id = wid →
        periodRowById db' br.tariff_period_id = periodRowById db br.tariff_period_id) :
    getCurrentPeriodForWarehouse wid now db' = getCurrentPeriodForWarehouse wid now db := by
  unfold getCurrentPeriodForWarehouse
  rw [hbr]
  congr 1
  apply List.filterMap_congr
  intro br hbr'
  unfold locatorCandidate
  by_cases hw : (br.warehouse_id == wid) = true
  · rw [hper br hbr' (by simpa using hw)]
  · simp [hw]

lemma getCurrentPeriod_some {db : DB} {wid : Nat} {now : Instant} {p : PeriodRow}
    (h : getCurrentPeriodForWarehouse wid now db = some p) :
    (∃ br ∈ db.box_rates, br.warehouse_id = wid ∧ br.tariff_period_id = p.id) ∧
      periodRowById db p.id = some p ∧ activeB p now = true := by
  unfold getCurrentPeriodForWarehouse at h
  have hp : p ∈ db.box_rates.filterMap (locatorCandidate db wid now) := by
    cases hl : db.box_rates.filterMap (locatorCandidate db wid now) with
    | nil => rw [hl] at h; cases h
    | cons a t =>
      rw [hl] at h
      simp only [List.head?] at h
      injection h with h
      rw [← h]
      exact List.mem_cons_self _ _
  obtain ⟨br, hbr, hfbr⟩ := List.mem_filterMap.mp hp
  obtain ⟨hw, hrow, hact⟩ := locatorCandidate_eq_some.mp hfbr
  have hid := (periodRowById_mem hrow).2
  exact ⟨⟨br, hbr, hw, hid.symm⟩, hid ▸ hrow, hact⟩

lemma getCurrentPeriod_none {db : DB} {wid : Nat} {now : Instant}
    (h : getCurrentPeriodForWarehouse wid now db = none) :
    ∀ br ∈ db.box_rates, br.warehouse_id = wid →
      ∀ p, periodRowById db br.tariff_period_id = some p → activeB p now = false := by
  unfold getCurrentPeriodForWarehouse at h
  have hnil : db.box_rates.filterMap (locatorCandidate db wid now) = [] := by
    cases hl : db.box_rates.filterMap (locatorCandidate db wid now) with
    | nil => rfl
    | cons a t => rw [hl] at h; cases h
  intro br hbr hw p hrow
  have hfn := List.filterMap_eq_nil_iff.mp hnil br hbr
  by_contra hact
  rw [Bool.not_eq_false] at hact
  rw [locatorCandidate_eq_some.mpr ⟨hw, hrow, hact⟩] at hfn
  cases hfn

lemma getCurrentPeriod_eq_some {db : DB} {wid : Nat} {now : Instant} {pstar : PeriodRow}
    (hex : ∃ br ∈ db.box_rates, br.warehouse_id = wid ∧ br.tariff_period_id = pstar.id)
    (hrow : periodRowById db pstar.id = some pstar)
    (hact : activeB pstar now = true)
    (huni : ∀ q : PeriodRow, (∃ br ∈ db.box_rates, br.warehouse_id = wid ∧
        periodRowById db br.tariff_period_id = some q) → activeB q now = true → q = pstar) :
    getCurrentPeriodForWarehouse wid now db = some pstar := by
  unfold getCurrentPeriodForWarehouse
  obtain ⟨br, hbr, hw, hpid⟩ := hex
  have hfbr : locatorCandidate db wid now br = some pstar :=
    locatorCandidate_eq_some.mpr ⟨hw, hpid ▸ hrow, hact⟩
  cases hl : db.box_rates.filterMap (locatorCandidate db wid now) with
  | nil =>
    have := List.filterMap_eq_nil_iff.mp hl br hbr
    rw [hfbr] at this
    cases this
  | cons a t =>
    have ha : a ∈ db.box_rates.filterMap (locatorCandidate db wid now) :=
      hl ▸ List.mem_cons_self _ _
    obtain ⟨br', hbr', hfbr'⟩ := List.mem_filterMap.mp ha
    obtain ⟨hw', hrow', hact'⟩ := locatorCandidate_eq_some.mp hfbr'
    have : a = pstar := huni a ⟨br', hbr', hw', hrow'⟩ hact'
    rw [this]
    rfl

lemma attachedB_false_iff {db : DB} {wid pid : Nat} :
    attachedB db wid pid = false ↔
      ∀ br ∈ db.box_rates, br.warehouse_id = wid → br.tariff_period_id ≠ pid := by
  unfold attachedB
  rw [← Bool.not_eq_true, List.any_eq_true]
  simp only [Bool.and_eq_true, beq_iff_eq, not_exists, not_and]

lemma attachedB_true_iff {db : DB} {wid pid : Nat} :
    attachedB db wid pid = true ↔
      ∃ br ∈ db.box_rates, br.warehouse_id = wid ∧ br.tariff_period_id = pid := by
  unfold attachedB
  rw [List.any_eq_true]
  simp only [Bool.and_eq_true, beq_iff_eq]

lemma processPair_cases (endDate now : Instant) (db : DB) (w : ProcessedWarehouse)
    (r : ProcessedBoxRate) {wid : Nat} (hw : w.id = some wid) :
    (∃ p0, getCurrentPeriodForWarehouse wid now db = some p0 ∧
        checkRatesMatchForWarehouse p0.id wid r.rates db = true ∧
        processPair endDate now db w r =
          (updatePeriodEnd db p0.id (some endDate),
           { r with warehouse_id := some wid, tariff_period_id := some p0.id }, 0, 0)) ∨
    (∃ p0, getCurrentPeriodForWarehouse wid now db = some p0 ∧
        checkRatesMatchForWarehouse p0.id wid r.rates db = false ∧
        processPair endDate now db w r =
          ((insertPeriod (updatePeriodEnd db p0.id (some now)) now (some endDate)).1,
           { r with warehouse_id := some wid, tariff_period_id := some db.nextId }, 1, 1)) ∨
    (getCurrentPeriodForWarehouse wid now db = none ∧
        processPair endDate now db w r =
          ((insertPeriod db now (some endDate)).1,
           { r with warehouse_id := some wid, tariff_period_id := some db.nextId }, 1, 1)) := by
  cases hloc : getCurrentPeriodForWarehouse wid now db with
  | some p0 =>
    by_cases hc : checkRatesMatchForWarehouse p0.id wid r.rates db = true
    · exact Or.inl ⟨p0, rfl, hc, by simp [processPair, hw, hloc, hc]⟩
    · refine Or.inr (Or.inl ⟨p0, rfl, by simpa using hc, ?_⟩)
      simp [processPair, hw, hloc, hc, insertPeriod, updatePeriodEnd]
  | none =>
    refine Or.inr (Or.inr ⟨rfl, ?_⟩)
    simp [processPair, hw, hloc, insertPeriod]

lemma processPair_db_frames (endDate now : Instant) (db : DB) (w : ProcessedWarehouse)
    (r : ProcessedBoxRate) :
    (processPair endDate now db w r).1.box_rates = db.box_rates ∧
    (processPair endDate now db w r).1.warehouses = db.warehouses ∧
    db.nextId ≤ (processPair endDate now db w r).1.nextId := by
  cases hid : w.id with
  | none => simp [processPair, hid]
  | some wid =>
    rcases processPair_cases endDate now db w r hid with
      ⟨p0, hloc, hc, heq⟩ | ⟨p0, hloc, hc, heq⟩ | ⟨hloc, heq⟩ <;>
    rw [heq] <;>
    simp [updatePeriodEnd, insertPeriod, Nat.le_succ]

lemma processPair_midWF {db : DB} (h : MidWF db) (endDate now : Instant)
    (w : ProcessedWarehouse) (r : ProcessedBoxRate) :
    MidWF (processPair endDate now db w r).1 := by
  cases hid : w.id with
  | none => simpa [processPair, hid] using h
  | some wid =>
    rcases processPair_cases endDate now db w r hid with
      ⟨p0, hloc, hc, heq⟩ | ⟨p0, hloc, hc, heq⟩ | ⟨hloc, heq⟩ <;> rw [heq]
    · exact h.updateEnd p0.id (some endDate)
    · exact (h.updateEnd p0.id (some now)).insert now (some endDate)
    · exact h.insert now (some endDate)

lemma processPair_frame {db : DB} (_hwf : MidWF db) (endDate now : Instant)
    (w : ProcessedWarehouse) (r : ProcessedBoxRate) {pid : Nat} (hpid : pid < db.nextId)
    (hnot : ∀ wid, w.id = some wid → ∀ br ∈ db.box_rates, br.warehouse_id = wid →
        br.tariff_period_id ≠ pid) :
    periodRowById (processPair endDate now db w r).1 pid = periodRowById db pid := by
  cases hid : w.id with
  | none => simp [processPair, hid]
  | some wid =>
    rcases processPair_cases endDate now db w r hid with
      ⟨p0, hloc, hc, heq⟩ | ⟨p0, hloc, hc, heq⟩ | ⟨hloc, heq⟩ <;> rw [heq]
    · obtain ⟨⟨br, hbr, hbw, hbp⟩, -, -⟩ := getCurrentPeriod_some hloc
      have hne : pid ≠ p0.id := fun he => hnot wid hid br hbr hbw (hbp.trans he.symm)
      exact periodRowById_update_ne _ hne
    · obtain ⟨⟨br, hbr, hbw, hbp⟩, -, -⟩ := getCurrentPeriod_some hloc
      have hne : pid ≠ p0.id := fun he => hnot wid hid br hbr hbw (hbp.trans he.symm)
      rw [periodRowById_insert_ne now (some endDate)
        (show pid ≠ (updatePeriodEnd db p0.id (some now)).nextId from Nat.ne_of_lt hpid)]
      exact periodRowById_update_ne _ hne
    · exact periodRowById_insert_ne now (some endDate) (Nat.ne_of_lt hpid)

lemma processLoop_frames (endDate now : Instant) :
    ∀ (L : List (ProcessedWarehouse × ProcessedBoxRate)) (db : DB),
      (processLoop endDate now L db).1.box_rates = db.box_rates ∧
      (processLoop endDate now L db).1.warehouses = db.warehouses ∧
      db.nextId ≤ (processLoop endDate now L db).1.nextId ∧
      (processLoop endDate now L db).2.1.length = L.length := by
  intro L
  induction L with
  | nil => intro db; simp [processLoop]
  | cons wr rest ih =>
    intro db
    obtain ⟨w, r⟩ := wr
    cases hp : processPair endDate now db w r with
    | mk db1 rest1 =>
      obtain ⟨r1, pc1, rc1⟩ := rest1
      have hfr := processPair_db_frames endDate now db w r
      rw [hp] at hfr
      have hih := ih db1
      simp only [processLoop, hp]
      cases hl : processLoop endDate now rest db1 with
      | mk db2 rest2 =>
        obtain ⟨rs, pc, rc⟩ := rest2
        rw [hl] at hih
        exact ⟨hih.1.trans hfr.1, hih.2.1.trans hfr.2.1,
          le_trans hfr.2.2 hih.2.2.1, by simp [hih.2.2.2]⟩

lemma processLoop_midWF (endDate now : Instant) :
    ∀ (L : List (ProcessedWarehouse × ProcessedBoxRate)) (db : DB),
      MidWF db → MidWF (processLoop endDate now L db).1 := by
  intro L
  induction L with
  | nil => intro db h; exact h
  | cons wr rest ih =>
    intro db h
    obtain ⟨w, r⟩ := wr
    cases hp : processPair endDate now db w r with
    | mk db1 rest1 =>
      obtain ⟨r1, pc1, rc1⟩ := rest1
      have h1 := processPair_midWF h endDate now w r
      rw [hp] at h1
      simp only [processLoop, hp]
      cases hl : processLoop endDate now rest db1 with
      | mk db2 rest2 =>
        obtain ⟨rs, pc, rc⟩ := rest2
        have := ih db1 h1
        rw [hl] at this
        exact this

lemma processLoop_frame (endDate now : Instant) :
    ∀ (L : List (ProcessedWarehouse × ProcessedBoxRate)) (db : DB),
      MidWF db →
      ∀ {pid : Nat}, pid < db.nextId →
      (∀ wr ∈ L, ∀ wid, wr.1.id = some wid → attachedB db wid pid = false) →
      periodRowById (processLoop endDate now L db).1 pid = periodRowById db pid := by
  intro L
  induction L with
  | nil => intro db _ pid _ _; rfl
  | cons wr rest ih =>
    intro db hWF pid hpid hnot
    obtain ⟨w, r⟩ := wr
    cases hp : processPair endDate now db w r with
    | mk db1 rest1 =>
      obtain ⟨r1, pc1, rc1⟩ := rest1
      have hfr := processPair_db_frames endDate now db w r
      rw [hp] at hfr
      have hWF1 := processPair_midWF hWF endDate now w r
      rw [hp] at hWF1
      have hstep : periodRowById db1 pid = periodRowById db pid := by
        have := processPair_frame hWF endDate now w r hpid (by
          intro wid hwid br hbr hbw
          exact attachedB_false_iff.mp
            (hnot (w, r) (List.mem_cons_self _ _) wid hwid) br hbr hbw)
        rw [hp] at this
        exact this
      simp only [processLoop, hp]
      cases hl : processLoop endDate now rest db1 with
      | mk db2 rest2 =>
        obtain ⟨rs, pc, rc⟩ := rest2
        have hrest : periodRowById db2 pid = periodRowById db1 pid := by
          have := ih db1 hWF1 (lt_of_lt_of_le hpid hfr.2.2) (by
            intro wr' hwr' wid hwid
            rw [attachedB_congr hfr.1]
            exact hnot wr' (List.mem_cons_of_mem _ hwr') wid hwid)
          rw [hl] at this
          exact this
        exact hrest.trans hstep

lemma no_share_unique {db : DB} (hWF : MidWF db) {wid wid' pid : Nat}
    (h1 : attachedB db wid pid = true) (h2 : attachedB db wid' pid = true) : wid = wid' := by
  obtain ⟨br, hbr, hw, hp⟩ := attachedB_true_iff.mp h1
  obtain ⟨br', hbr', hw', hp'⟩ := attachedB_true_iff.mp h2
  rw [← hw, ← hw']
  exact hWF.no_share br hbr br' hbr' (hp.trans hp'.symm)

lemma attachedB_nextId_false {db : DB} (hWF : MidWF db) (wid : Nat) :
    attachedB db wid db.nextId = false :=
  attachedB_false_iff.mpr (fun br hbr _ => Nat.ne_of_lt (hWF.br_lt br hbr).2)

lemma rest_attached_false {db : DB} (hWF : MidWF db)
    {w : ProcessedWarehouse} {r : ProcessedBoxRate}
    {rest : List (ProcessedWarehouse × ProcessedBoxRate)}
    (hnd : (((w, r) :: rest).map (fun wr => wr.1.id)).Nodup)
    {wid pid : Nat} (hw : w.id = some wid) (hatt : attachedB db wid pid = true) :
    ∀ wr' ∈ rest, ∀ wid', wr'.1.id = some wid' → attachedB db wid' pid = false := by
  intro wr' hwr' wid' hwid'
  by_contra hc
  rw [Bool.not_eq_false] at hc
  have heq : wid = wid' := no_share_unique hWF hatt hc
  rw [List.map_cons, List.nodup_cons] at hnd
  apply hnd.1
  rw [hw, heq, ← hwid']
  exact List.mem_map_of_mem _ hwr'

lemma attached_lt {db : DB} (hWF : MidWF db) {wid pid : Nat}
    (h : attachedB db wid pid = true) : pid < db.nextId := by
  obtain ⟨br, hbr, -, hp⟩ := attachedB_true_iff.mp h
  exact hp ▸ (hWF.br_lt br hbr).2

lemma RecordPost_mono {endDate now : Instant} {db db' dbF : DB}
    {wr : ProcessedWarehouse × ProcessedBoxRate} {r1 : ProcessedBoxRate}
    (hbr : db'.box_rates = db.box_rates)
    (hnext : db.nextId ≤ db'.nextId)
    (hper : ∀ wid, wr.1.id = some wid → ∀ pid, attachedB db wid pid = true →
        periodRowById db' pid = periodRowById db pid)
    (h : RecordPost endDate now db' dbF wr r1) :
    RecordPost endDate now db dbF wr r1 := by
  obtain ⟨w, r⟩ := wr
  cases hid : w.id with
  | none =>
    simp only [RecordPost, hid] at h ⊢
    exact h
  | some wid =>
    have hperw := hper wid hid
    have hloceq : getCurrentPeriodForWarehouse wid now db' =
        getCurrentPeriodForWarehouse wid now db := by
      apply getCurrentPeriod_congr wid now hbr
      intro br hbrm hbw
      exact hperw br.tariff_period_id
        (attachedB_true_iff.mpr ⟨br, hbrm, hbw, rfl⟩)
    have hatteq : ∀ pid, attachedB db' wid pid = attachedB db wid pid :=
      fun pid => attachedB_congr hbr wid pid
    simp only [RecordPost, hid] at h ⊢
    obtain ⟨hr, hw, pid, hpid, hcase⟩ := h
    refine ⟨hr, hw, pid, hpid, ?_⟩
    rcases hcase with ⟨p0, hloc, hc, hpe, hrow, hframe⟩ | ⟨p0, hloc, hc, hge, hrow0, hrow, hframe⟩ |
      ⟨hloc, hge, hrow, hframe⟩
    · refine Or.inl ⟨p0, hloceq ▸ hloc, ?_, hpe, hrow, ?_⟩
      · rw [← checkRates_congr hbr]
        exact hc
      · intro pid' hatt hne
        rw [← hperw pid' hatt]
        exact hframe pid' ((hatteq pid').symm ▸ hatt) hne
    · refine Or.inr (Or.inl ⟨p0, hloceq ▸ hloc, ?_, le_trans hnext hge, hrow0, hrow, ?_⟩)
      · rw [← checkRates_congr hbr]
        exact hc
      · intro pid' hatt hne
        rw [← hperw pid' hatt]
        exact hframe pid' ((hatteq pid').symm ▸ hatt) hne
    · refine Or.inr (Or.inr ⟨hloceq ▸ hloc, le_trans hnext hge, hrow, ?_⟩)
      intro pid' hatt
      rw [← hperw pid' hatt]
      exact hframe pid' ((hatteq pid').symm ▸ hatt)

lemma forall₂_imp_mem {α β : Type} {R S : α → β → Prop} :
    ∀ {l1 : List α} {l2 : List β}, (∀ a ∈ l1, ∀ b ∈ l2, R a b → S a b) →
      List.Forall₂ R l1 l2 → List.Forall₂ S l1 l2 := by
  intro l1 l2 h hf
  induction hf with
  | nil => exact List.Forall₂.nil
  | @cons a b la lb hR hft ih =>
    refine List.Forall₂.cons
      (h a (List.mem_cons_self _ _) b (List.mem_cons_self _ _) hR) ?_
    exact ih (fun x hx y hy => h x (List.mem_cons_of_mem _ hx) y (List.mem_cons_of_mem _ hy))

lemma processLoop_spec (endDate now : Instant) :
    ∀ (L : List (ProcessedWarehouse × ProcessedBoxRate)) (db : DB),
      MidWF db →
      (L.map (fun wr => wr.1.id)).Nodup →
      List.Forall₂ (RecordPost endDate now db (processLoop endDate now L db).1)
        L (processLoop endDate now L db).2.1 := by
  intro L
  induction L with
  | nil => intro db _ _; exact List.Forall₂.nil
  | cons wr rest ih =>
    intro db hWF hnd
    obtain ⟨w, r⟩ := wr
    cases hp : processPair endDate now db w r with
    | mk db1 rest1 =>
      obtain ⟨r1, pc1, rc1⟩ := rest1
      have hfr := processPair_db_frames endDate now db w r
      rw [hp] at hfr
      have hWF1 := processPair_midWF hWF endDate now w r
      rw [hp] at hWF1
      have hndtail : (rest.map (fun wr => wr.1.id)).Nodup := by
        rw [List.map_cons, List.nodup_cons] at hnd
        exact hnd.2
      simp only [processLoop, hp]
      cases hl : processLoop endDate now rest db1 with
      | mk db2 rest2 =>
        obtain ⟨rs, pc, rc⟩ := rest2
        have hfr2 := processLoop_frames endDate now rest db1
        rw [hl] at hfr2
        have hih := ih db1 hWF1 hndtail
        rw [hl] at hih
        refine List.Forall₂.cons ?_ ?_
        · -- head: RecordPost for (w, r) and r1
          cases hid : w.id with
          | none =>
            have : (db, r, 0, 0) = (db1, r1, pc1, rc1) := by
              rw [← hp]
              simp [processPair, hid]
            simp only [RecordPost, hid]
            injection this with h1 h2
            injection h2 with h2 h3
            exact h2.symm
          | some wid =>
            rcases processPair_cases endDate now db w r hid with
              ⟨p0, hloc, hc, heq⟩ | ⟨p0, hloc, hc, heq⟩ | ⟨hloc, heq⟩
            · -- extend case
              rw [hp] at heq
              injection heq with h1 h2
              injection h2 with h2 h3
              obtain ⟨⟨br0, hbr0, hbw0, hbp0⟩, hrow0, hact0⟩ := getCurrentPeriod_some hloc
              have hatt0 : attachedB db wid p0.id = true :=
                attachedB_true_iff.mpr ⟨br0, hbr0, hbw0, hbp0⟩
              have hplt : p0.id < db.nextId := attached_lt hWF hatt0
              have hpers1 : ∀ pid', attachedB db wid pid' = true → pid' < db1.nextId →
                  periodRowById db2 pid' = periodRowById db1 pid' := by
                intro pid' hatt hlt
                have := processLoop_frame endDate now rest db1 hWF1 hlt (by
                  intro wr' hwr' wid' hwid'
                  rw [attachedB_congr hfr.1]
                  exact rest_attached_false hWF hnd hid hatt wr' hwr' wid' hwid')
                rw [hl] at this
                exact this
              simp only [RecordPost, hid]
              refine ⟨by rw [h2], by rw [h2], p0.id, by rw [h2], ?_⟩
              refine Or.inl ⟨p0, hloc, hc, rfl, ?_, ?_⟩
              · -- the extended row survives the rest of the loop
                have hstep : periodRowById db1 p0.id =
                    some { p0 with end_date := some endDate } := by
                  rw [h1]
                  exact periodRowById_update_self _ hrow0
                rw [hpers1 p0.id hatt0 (lt_of_lt_of_le hplt hfr.2.2), hstep]
              · intro pid' hatt hne
                have hlt' : pid' < db.nextId := attached_lt hWF hatt
                have hstep : periodRowById db1 pid' = periodRowById db pid' := by
                  rw [h1]
                  exact periodRowById_update_ne _ hne
                rw [hpers1 pid' hatt (lt_of_lt_of_le hlt' hfr.2.2), hstep]
            · -- rollover case
              rw [hp] at heq
              injection heq with h1 h2
              injection h2 with h2 h3
              obtain ⟨⟨br0, hbr0, hbw0, hbp0⟩, hrow0, hact0⟩ := getCurrentPeriod_some hloc
              have hatt0 : attachedB db wid p0.id = true :=
                attachedB_true_iff.mpr ⟨br0, hbr0, hbw0, hbp0⟩
              have hplt : p0.id < db.nextId := attached_lt hWF hatt0
              have hpers : ∀ pid', pid' < db1.nextId →
                  (∀ wr' ∈ rest, ∀ wid', wr'.1.id = some wid' →
                    attachedB db wid' pid' = false) →
                  periodRowById db2 pid' = periodRowById db1 pid' := by
                intro pid' hlt hnot
                have := processLoop_frame endDate now rest db1 hWF1 hlt (by
                  intro wr' hwr' wid' hwid'
                  rw [attachedB_congr hfr.1]
                  exact hnot wr' hwr' wid' hwid')
                rw [hl] at this
                exact this
              have hmidWFu : MidWF (updatePeriodEnd db p0.id (some now)) :=
                hWF.updateEnd p0.id (some now)
              have hnextid1 : db1.nextId = db.nextId + 1 := by
                rw [h1]
                rfl
              simp only [RecordPost, hid]
              refine ⟨by rw [h2], by rw [h2], db.nextId, by rw [h2], ?_⟩
              refine Or.inr (Or.inl ⟨p0, hloc, hc, le_refl _, ?_, ?_, ?_⟩)
              · -- the closed row survives
                have hstep : periodRowById db1 p0.id =
                    some { p0 with end_date := some now } := by
                  rw [h1]
                  rw [periodRowById_insert_ne now (some endDate)
                    (show p0.id ≠ (updatePeriodEnd db p0.id (some now)).nextId from
                      Nat.ne_of_lt hplt)]
                  exact periodRowById_update_self _ hrow0
                rw [hpers p0.id (lt_of_lt_of_le hplt hfr.2.2)
                  (rest_attached_false hWF hnd hid hatt0), hstep]
              · -- the fresh row survives
                have hstep : periodRowById db1 db.nextId =
                    some ⟨db.nextId, now, some endDate⟩ := by
                  rw [h1]
                  exact periodRowById_insert_self now (some endDate) hmidWFu.pid_lt
                have : periodRowById db2 db.nextId = periodRowById db1 db.nextId := by
                  apply hpers db.nextId (by rw [hnextid1]; exact Nat.lt_succ_self _)
                  intro wr' hwr' wid' hwid'
                  exact attachedB_nextId_false hWF wid'
                rw [this, hstep]
              · intro pid' hatt hne
                have hlt' : pid' < db.nextId := attached_lt hWF hatt
                have hstep : periodRowById db1 pid' = periodRowById db pid' := by
                  rw [h1]
                  rw [periodRowById_insert_ne now (some endDate)
                    (show pid' ≠ (updatePeriodEnd db p0.id (some now)).nextId from
                      Nat.ne_of_lt hlt')]
                  exact periodRowById_update_ne _ hne
                rw [hpers pid' (lt_of_lt_of_le hlt' hfr.2.2)
                  (rest_attached_false hWF hnd hid hatt), hstep]
            · -- create case
              rw [hp] at heq
              injection heq with h1 h2
              injection h2 with h2 h3
              have hpers : ∀ pid', pid' < db1.nextId →
                  (∀ wr' ∈ rest, ∀ wid', wr'.1.id = some wid' →
                    attachedB db wid' pid' = false) →
                  periodRowById db2 pid' = periodRowById db1 pid' := by
                intro pid' hlt hnot
                have := processLoop_frame endDate now rest db1 hWF1 hlt (by
                  intro wr' hwr' wid' hwid'
                  rw [attachedB_congr hfr.1]
                  exact hnot wr' hwr' wid' hwid')
                rw [hl] at this
                exact this
              have hnextid1 : db1.nextId = db.nextId + 1 := by
                rw [h1]
                rfl
              simp only [RecordPost, hid]
              refine ⟨by rw [h2], by rw [h2], db.nextId, by rw [h2], ?_⟩
              refine Or.inr (Or.inr ⟨hloc, le_refl _, ?_, ?_⟩)
              · have hstep : periodRowById db1 db.nextId =
                    some ⟨db.nextId, now, some endDate⟩ := by
                  rw [h1]
                  exact periodRowById_insert_self now (some endDate) hWF.pid_lt
                have : periodRowById db2 db.nextId = periodRowById db1 db.nextId := by
                  apply hpers db.nextId (by rw [hnextid1]; exact Nat.lt_succ_self _)
                  intro wr' hwr' wid' hwid'
                  exact attachedB_nextId_false hWF wid'
                rw [this, hstep]
              · intro pid' hatt
                have hlt' : pid' < db.nextId := attached_lt hWF hatt
                have hstep : periodRowById db1 pid' = periodRowById db pid' := by
                  rw [h1]
                  exact periodRowById_insert_ne now (some endDate) (Nat.ne_of_lt hlt')
                rw [hpers pid' (lt_of_lt_of_le hlt' hfr.2.2)
                  (rest_attached_false hWF hnd hid hatt), hstep]
        · -- tail: transfer the induction hypothesis from db1 to db
          refine forall₂_imp_mem ?_ hih
          intro wr' hwr' r' _ hpost
          refine RecordPost_mono hfr.1 hfr.2.2 ?_ hpost
          intro wid' hwid' pid hatt
          have hlt : pid < db.nextId := attached_lt hWF hatt
          have := processPair_frame hWF endDate now w r hlt (by
            intro wid0 hwid0 br0 hbr0 hbw0 hbp0
            have hatt0 : attachedB db wid0 pid = true :=
              attachedB_true_iff.mpr ⟨br0, hbr0, hbw0, hbp0⟩
            have heqw : wid0 = wid' := no_share_unique hWF hatt0 hatt
            rw [List.map_cons, List.nodup_cons] at hnd
            apply hnd.1
            rw [hwid0, heqw, ← hwid']
            exact List.mem_map_of_mem _ hwr')
          rw [hp] at this
          exact this

lemma upsertBoxRate_frames (db : DB) (wid pid : Nat) (v : RateVec) :
    (upsertBoxRate db wid pid v).tariff_periods = db.tariff_periods ∧
    (upsertBoxRate db wid pid v).warehouses = db.warehouses ∧
    db.nextId ≤ (upsertBoxRate db wid pid v).nextId := by
  unfold upsertBoxRate
  by_cases h : db.box_rates.any
      (fun br => br.warehouse_id == wid && br.tariff_period_id == pid) = true <;>
    simp [h, Nat.le_succ]

lemma attachedB_upsert (db : DB) (wid pid : Nat) (v : RateVec) (wid' pid' : Nat) :
    attachedB (upsertBoxRate db wid pid v) wid' pid' = true ↔
      (attachedB db wid' pid' = true ∨ (wid' = wid ∧ pid' = pid)) := by
  unfold upsertBoxRate
  by_cases h : db.box_rates.any
      (fun br => br.warehouse_id == wid && br.tariff_period_id == pid) = true
  · rw [if_pos h]
    have hmap : attachedB { db with box_rates := db.box_rates.map (fun br =>
        if br.warehouse_id == wid && br.tariff_period_id == pid then
          { br with rates := v } else br) } wid' pid' = attachedB db wid' pid' := by
      unfold attachedB
      simp only [List.any_map]
      congr 1
      funext br
      by_cases hc : (br.warehouse_id == wid && br.tariff_period_id == pid) = true <;>
        simp [Function.comp, hc]
    rw [hmap]
    constructor
    · exact Or.inl
    · rintro (hatt | ⟨rfl, rfl⟩)
      · exact hatt
      · unfold attachedB
        exact h
  · rw [if_neg h]
    unfold attachedB
    simp only [List.any_append, List.any_cons, List.any_nil, Bool.or_false,
      Bool.or_eq_true, Bool.and_eq_true, beq_iff_eq]
    constructor
    · rintro (hatt | ⟨h1, h2⟩)
      · exact Or.inl hatt
      · exact Or.inr ⟨h1.symm, h2.symm⟩
    · rintro (hatt | ⟨h1, h2⟩)
      · exact Or.inl hatt
      · exact Or.inr ⟨h1.symm, h2.symm⟩

lemma findExistingRate_upsert_other (db : DB) (wid pid : Nat) (v : RateVec)
    {wid' pid' : Nat} (h : ¬(wid' = wid ∧ pid' = pid)) :
    findExistingRate (upsertBoxRate db wid pid v) pid' wid' =
      findExistingRate db pid' wid' := by
  unfold upsertBoxRate findExistingRate
  by_cases hc : db.box_rates.any
      (fun br => br.warehouse_id == wid && br.tariff_period_id == pid) = true
  · rw [if_pos hc]
    simp only [List.find?_map]
    have hpred : ((fun br : BoxRateRow =>
        br.tariff_period_id == pid' && br.warehouse_id == wid') ∘
        (fun br => if br.warehouse_id == wid && br.tariff_period_id == pid then
          { br with rates := v } else br)) =
        (fun br : BoxRateRow => br.tariff_period_id == pid' && br.warehouse_id == wid') := by
      funext br
      by_cases hb : (br.warehouse_id == wid && br.tariff_period_id == pid) = true <;>
        simp [Function.comp, hb]
    rw [hpred]
    cases hfind : db.box_rates.find?
        (fun br => br.tariff_period_id == pid' && br.warehouse_id == wid') with
    | none => rfl
    | some br =>
      have hb := List.find?_some hfind
      simp only [Bool.and_eq_true, beq_iff_eq] at hb
      have : ¬(br.warehouse_id == wid && br.tariff_period_id == pid) = true := by
        simp only [Bool.and_eq_true, beq_iff_eq, not_and]
        intro hbw hbp
        exact h ⟨hb.2 ▸ hbw, hb.1 ▸ hbp⟩
      simp [Option.map, this]
  · rw [if_neg hc]
    simp only [List.find?_append]
    have : List.find? (fun br => br.tariff_period_id == pid' && br.warehouse_id == wid')
        [(⟨db.nextId, wid, pid, v⟩ : BoxRateRow)] = none := by
      simp only [List.find?]
      have : ¬((pid == pid') && (wid == wid')) = true := by
        simp only [Bool.and_eq_true, beq_iff_eq, not_and]
        intro h1 h2
        exact h ⟨h2.symm, h1.symm⟩
      rw [Bool.not_eq_true] at this
      exact by rw [this]
    rw [this, Option.or_none]

lemma findExistingRate_upsert_self (db : DB) (wid pid : Nat) (v : RateVec) :
    ∃ br, findExistingRate (upsertBoxRate db wid pid v) pid wid = some br ∧
      br.warehouse_id = wid ∧ br.tariff_period_id = pid ∧ br.rates = v := by
  unfold upsertBoxRate findExistingRate
  by_cases hc : db.box_rates.any
      (fun br => br.warehouse_id == wid && br.tariff_period_id == pid) = true
  · rw [if_pos hc]
    simp only [List.find?_map]
    have hpred : ((fun br : BoxRateRow =>
        br.tariff_period_id == pid && br.warehouse_id == wid) ∘
        (fun br => if br.warehouse_id == wid && br.tariff_period_id == pid then
          { br with rates := v } else br)) =
        (fun br : BoxRateRow => br.tariff_period_id == pid && br.warehouse_id == wid) := by
      funext br
      by_cases hb : (br.warehouse_id == wid && br.tariff_period_id == pid) = true <;>
        simp [Function.comp, hb]
    rw [hpred]
    obtain ⟨br, hbr, hp⟩ := List.any_eq_true.mp hc
    have hfind : (db.box_rates.find?
        (fun br => br.tariff_period_id == pid && br.warehouse_id == wid)).isSome := by
      rw [List.find?_isSome]
      refine ⟨br, hbr, ?_⟩
      simp only [Bool.and_eq_true] at hp ⊢
      exact ⟨hp.2, hp.1⟩
    obtain ⟨br', hbr'⟩ := Option.isSome_iff_exists.mp hfind
    have hb' := List.find?_some hbr'
    simp only [Bool.and_eq_true, beq_iff_eq] at hb'
    have hcond : (br'.warehouse_id == wid && br'.tariff_period_id == pid) = true := by
      simp only [Bool.and_eq_true, beq_iff_eq]
      exact ⟨hb'.2, hb'.1⟩
    refine ⟨{ br' with rates := v }, ?_, by simp [hb'.2], by simp [hb'.1], rfl⟩
    rw [hbr']
    simp [Option.map, hcond]
  · rw [if_neg hc]
    simp only [List.find?_append]
    have hnone : List.find?
        (fun br => br.tariff_period_id == pid && br.warehouse_id == wid)
        db.box_rates = none := by
      rw [List.find?_eq_none]
      intro br hbr
      simp only [Bool.and_eq_true, beq_iff_eq, not_and]
      intro h1 h2
      exact hc (List.any_eq_true.mpr ⟨br, hbr, by simp [h1, h2]⟩)
    rw [hnone]
    refine ⟨⟨db.nextId, wid, pid, v⟩, ?_, rfl, rfl, rfl⟩
    simp [List.find?]

lemma rateRowCount_upsert_other (db : DB) (wid pid : Nat) (v : RateVec)
    {wid' : Nat} (h : wid' ≠ wid) :
    rateRowCount (upsertBoxRate db wid pid v) wid' = rateRowCount db wid' := by
  unfold upsertBoxRate rateRowCount
  by_cases hc : db.box_rates.any
      (fun br => br.warehouse_id == wid && br.tariff_period_id == pid) = true
  · rw [if_pos hc]
    simp only [List.countP_map]
    congr 1
    funext br
    by_cases hb : (br.warehouse_id == wid && br.tariff_period_id == pid) = true <;>
      simp [Function.comp, hb]
  · rw [if_neg hc]
    simp only [List.countP_append, List.countP_cons, List.countP_nil]
    have : ((⟨db.nextId, wid, pid, v⟩ : BoxRateRow).warehouse_id == wid') = false := by
      simp [Ne.symm h]
    simp [this]

lemma rateRowCount_upsert_self (db : DB) (wid pid : Nat) (v : RateVec) :
    rateRowCount (upsertBoxRate db wid pid v) wid =
      rateRowCount db wid + (if attachedB db wid pid = true then 0 else 1) := by
  unfold upsertBoxRate rateRowCount attachedB
  by_cases hc : db.box_rates.any
      (fun br => br.warehouse_id == wid && br.tariff_period_id == pid) = true
  · rw [if_pos hc, if_pos hc]
    simp only [List.countP_map, Nat.add_zero]
    congr 1
    funext br
    by_cases hb : (br.warehouse_id == wid && br.tariff_period_id == pid) = true <;>
      simp [Function.comp, hb]
  · rw [if_neg hc, if_neg hc]
    simp [List.countP_append, List.countP_cons]

lemma bool_eq_of_iff {a b : Bool} (h : a = true ↔ b = true) : a = b := by
  cases a <;> cases b <;> simp_all

lemma saveBoxRates_frames : ∀ (rs : List ProcessedBoxRate) (db : DB),
    (saveBoxRates rs db).tariff_periods = db.tariff_periods ∧
    (saveBoxRates rs db).warehouses = db.warehouses ∧
    db.nextId ≤ (saveBoxRates rs db).nextId := by
  intro rs
  induction rs with
  | nil => intro db; exact ⟨rfl, rfl, le_refl _⟩
  | cons r rest ih =>
    intro db
    cases hw : r.warehouse_id with
    | none => simpa [saveBoxRates, hw] using ih db
    | some wid =>
      cases hp : r.tariff_period_id with
      | none => simpa [saveBoxRates, hw, hp] using ih db
      | some pid =>
        have hu := upsertBoxRate_frames db wid pid r.rates
        have hrest := ih (upsertBoxRate db wid pid r.rates)
        simp only [saveBoxRates, hw, hp]
        exact ⟨hrest.1.trans hu.1, hrest.2.1.trans hu.2.1, le_trans hu.2.2 hrest.2.2⟩

lemma saveBoxRates_append : ∀ (rs1 rs2 : List ProcessedBoxRate) (db : DB),
    saveBoxRates (rs1 ++ rs2) db = saveBoxRates rs2 (saveBoxRates rs1 db) := by
  intro rs1
  induction rs1 with
  | nil => intro rs2 db; rfl
  | cons r rest ih =>
    intro rs2 db
    cases hw : r.warehouse_id with
    | none => simp [saveBoxRates, hw, ih]
    | some wid =>
      cases hp : r.tariff_period_id with
      | none => simp [saveBoxRates, hw, hp, ih]
      | some pid => simp [saveBoxRates, hw, hp, ih]

lemma saveBoxRates_untouched : ∀ (rs : List ProcessedBoxRate) (db : DB) {wid : Nat},
    (∀ r' ∈ rs, ∀ w', r'.warehouse_id = some w' → w' ≠ wid) →
    (∀ pid, attachedB (saveBoxRates rs db) wid pid = attachedB db wid pid) ∧
    (∀ pid, findExistingRate (saveBoxRates rs db) pid wid = findExistingRate db pid wid) ∧
    rateRowCount (saveBoxRates rs db) wid = rateRowCount db wid := by
  intro rs
  induction rs with
  | nil => intro db wid _; exact ⟨fun _ => rfl, fun _ => rfl, rfl⟩
  | cons r rest ih =>
    intro db wid hnot
    have hnotrest : ∀ r' ∈ rest, ∀ w', r'.warehouse_id = some w' → w' ≠ wid :=
      fun r' hr' => hnot r' (List.mem_cons_of_mem _ hr')
    cases hw : r.warehouse_id with
    | none => simpa [saveBoxRates, hw] using ih db hnotrest
    | some w' =>
      have hne : w' ≠ wid := hnot r (List.mem_cons_self _ _) w' hw
      cases hp : r.tariff_period_id with
      | none => simpa [saveBoxRates, hw, hp] using ih db hnotrest
      | some p' =>
        have hrest := ih (upsertBoxRate db w' p' r.rates) hnotrest
        simp only [saveBoxRates, hw, hp]
        refine ⟨?_, ?_, ?_⟩
        · intro pid
          rw [hrest.1 pid]
          apply bool_eq_of_iff
          rw [attachedB_upsert]
          constructor
          · rintro (h | ⟨h1, -⟩)
            · exact h
            · exact absurd h1 (Ne.symm hne)
          · exact Or.inl
        · intro pid
          rw [hrest.2.1 pid]
          exact findExistingRate_upsert_other db w' p' r.rates
            (fun hcon => hne hcon.1.symm)
        · rw [hrest.2.2]
          exact rateRowCount_upsert_other db w' p' r.rates (Ne.symm hne)

lemma saveBoxRates_touched (rs1 rs2 : List ProcessedBoxRate) (db : DB)
    (e : ProcessedBoxRate) {wid pidk : Nat}
    (hew : e.warehouse_id = some wid) (hep : e.tariff_period_id = some pidk)
    (h1 : ∀ r' ∈ rs1, ∀ w', r'.warehouse_id = some w' → w' ≠ wid)
    (h2 : ∀ r' ∈ rs2, ∀ w', r'.warehouse_id = some w' → w' ≠ wid) :
    (∀ pid, attachedB (saveBoxRates (rs1 ++ e :: rs2) db) wid pid = true ↔
        (attachedB db wid pid = true ∨ pid = pidk)) ∧
    (∃ br, findExistingRate (saveBoxRates (rs1 ++ e :: rs2) db) pidk wid = some br ∧
        br.rates = e.rates) ∧
    (∀ pid, pid ≠ pidk →
        findExistingRate (saveBoxRates (rs1 ++ e :: rs2) db) pid wid =
          findExistingRate db pid wid) ∧
    rateRowCount (saveBoxRates (rs1 ++ e :: rs2) db) wid =
      rateRowCount db wid + (if attachedB db wid pidk = true then 0 else 1) := by
  rw [saveBoxRates_append]
  have hA := saveBoxRates_untouched rs1 db h1
  have hstep : saveBoxRates (e :: rs2) (saveBoxRates rs1 db) =
      saveBoxRates rs2 (upsertBoxRate (saveBoxRates rs1 db) wid pidk e.rates) := by
    simp [saveBoxRates, hew, hep]
  rw [hstep]
  have hB := saveBoxRates_untouched rs2
    (upsertBoxRate (saveBoxRates rs1 db) wid pidk e.rates) h2
  refine ⟨?_, ?_, ?_, ?_⟩
  · intro pid
    rw [hB.1 pid, attachedB_upsert, hA.1 pid]
    constructor
    · rintro (h | ⟨-, h⟩)
      · exact Or.inl h
      · exact Or.inr h
    · rintro (h | h)
      · exact Or.inl h
      · exact Or.inr ⟨rfl, h⟩
  · obtain ⟨br, hbr, -, -, hrates⟩ :=
      findExistingRate_upsert_self (saveBoxRates rs1 db) wid pidk e.rates
    exact ⟨br, (hB.2.1 pidk).trans hbr, hrates⟩
  · intro pid hne
    rw [hB.2.1 pid,
      findExistingRate_upsert_other _ wid pidk e.rates (fun hcon => hne hcon.2),
      hA.2.1 pid]
  · rw [hB.2.2, rateRowCount_upsert_self, hA.2.2, hA.1 pidk]

lemma extendWarehouses_wf (db : DB) (g n : String)
    (hk : (db.warehouses.map (fun w => (w.geo_name, w.warehouse_name))).Nodup)
    (hi : (db.warehouses.map (fun w => w.id)).Nodup)
    (hl : ∀ w ∈ db.warehouses, w.id < db.nextId)
    (hnot : ∀ row ∈ db.warehouses, ¬(row.geo_name = g ∧ row.warehouse_name = n)) :
    ((db.warehouses ++ [(⟨db.nextId, g, n⟩ : WarehouseRow)]).map
      (fun w => (w.geo_name, w.warehouse_name))).Nodup ∧
    ((db.warehouses ++ [(⟨db.nextId, g, n⟩ : WarehouseRow)]).map (fun w => w.id)).Nodup ∧
    (∀ x ∈ db.warehouses ++ [(⟨db.nextId, g, n⟩ : WarehouseRow)], x.id < db.nextId + 1) := by
  refine ⟨?_, ?_, ?_⟩
  · simp only [List.map_append, List.map_cons, List.map_nil]
    rw [List.nodup_append]
    refine ⟨hk, List.nodup_singleton _, ?_⟩
    intro x hx
    simp only [List.mem_map] at hx
    obtain ⟨row, hrow, rfl⟩ := hx
    simp only [List.mem_singleton]
    intro hc
    injection hc with hc1 hc2
    exact hnot row hrow ⟨hc1, hc2⟩
  · simp only [List.map_append, List.map_cons, List.map_nil]
    rw [List.nodup_append]
    refine ⟨hi, List.nodup_singleton _, ?_⟩
    intro x hx
    simp only [List.mem_map] at hx
    obtain ⟨row, hrow, rfl⟩ := hx
    simp only [List.mem_singleton]
    exact fun hc => absurd (hc ▸ hl row hrow) (lt_irrefl _)
  · intro x hx
    simp only [List.mem_append, List.mem_singleton] at hx
    rcases hx with hx | rfl
    · exact Nat.lt_succ_of_lt (hl x hx)
    · exact Nat.lt_succ_self _

lemma processWarehouses_spec :
    ∀ (ws : List ProcessedWarehouse) (db : DB),
      (db.warehouses.map (fun w => (w.geo_name, w.warehouse_name))).Nodup →
      (db.warehouses.map (fun w => w.id)).Nodup →
      (∀ w ∈ db.warehouses, w.id < db.nextId) →
      (processWarehouses ws db).2.tariff_periods = db.tariff_periods ∧
      (processWarehouses ws db).2.box_rates = db.box_rates ∧
      db.nextId ≤ (processWarehouses ws db).2.nextId ∧
      ((processWarehouses ws db).2.warehouses.map
        (fun w => (w.geo_name, w.warehouse_name))).Nodup ∧
      ((processWarehouses ws db).2.warehouses.map (fun w => w.id)).Nodup ∧
      (∀ w ∈ (processWarehouses ws db).2.warehouses,
        w.id < (processWarehouses ws db).2.nextId) ∧
      (∃ new : List WarehouseRow,
        (processWarehouses ws db).2.warehouses = db.warehouses ++ new ∧
        ∀ wrow ∈ new, db.nextId ≤ wrow.id) ∧
      List.Forall₂ (fun (w w' : ProcessedWarehouse) =>
        w'.geo_name = w.geo_name ∧ w'.warehouse_name = w.warehouse_name ∧
        ∃ wid row, w'.id = some wid ∧ row ∈ (processWarehouses ws db).2.warehouses ∧
          row.id = wid ∧ row.geo_name = w.geo_name ∧ row.warehouse_name = w.warehouse_name)
        ws (processWarehouses ws db).1 := by
  intro ws
  induction ws with
  | nil =>
    intro db hk hi hl
    exact ⟨rfl, rfl, le_refl _, hk, hi, hl, ⟨[], by simp [processWarehouses], by simp⟩,
      List.Forall₂.nil⟩
  | cons w rest ih =>
    intro db hk hi hl
    cases hfind : db.warehouses.find? (fun row =>
        row.geo_name == w.geo_name && row.warehouse_name == w.warehouse_name) with
    | some ex =>
      have hexkey := List.find?_some hfind
      simp only [Bool.and_eq_true, beq_iff_eq] at hexkey
      have hexmem := List.mem_of_find?_eq_some hfind
      have hrec := ih db hk hi hl
      cases hpw : processWarehouses rest db with
      | mk rest' db' =>
        rw [hpw] at hrec
        simp only [processWarehouses, hfind, hpw]
        obtain ⟨new, hnew, hnewid⟩ := hrec.2.2.2.2.2.2.1
        refine ⟨hrec.1, hrec.2.1, hrec.2.2.1, hrec.2.2.2.1, hrec.2.2.2.2.1,
          hrec.2.2.2.2.2.1, ⟨new, hnew, hnewid⟩, ?_⟩
        refine List.Forall₂.cons ⟨rfl, rfl, ex.id, ex, rfl, ?_, rfl, hexkey.1, hexkey.2⟩
          hrec.2.2.2.2.2.2.2
        rw [hnew]
        exact List.mem_append_left _ hexmem
    | none =>
      have hnotkey : ∀ row ∈ db.warehouses,
          ¬(row.geo_name = w.geo_name ∧ row.warehouse_name = w.warehouse_name) := by
        intro row hrow
        have := List.find?_eq_none.mp hfind row hrow
        simp only [Bool.and_eq_true, beq_iff_eq, not_and] at this
        rintro ⟨h1, h2⟩
        exact this h1 h2
      obtain ⟨hk1, hi1, hl1⟩ :=
        extendWarehouses_wf db w.geo_name w.warehouse_name hk hi hl hnotkey
      have hrec := ih { db with
        warehouses := db.warehouses ++ [⟨db.nextId, w.geo_name, w.warehouse_name⟩]
        nextId := db.nextId + 1 } hk1 hi1 hl1
      cases hpw : processWarehouses rest { db with
        warehouses := db.warehouses ++ [⟨db.nextId, w.geo_name, w.warehouse_name⟩]
        nextId := db.nextId + 1 } with
      | mk rest' db' =>
        rw [hpw] at hrec
        simp only [processWarehouses, hfind, hpw]
        obtain ⟨new, hnew, hnewid⟩ := hrec.2.2.2.2.2.2.1
        have hware : db'.warehouses =
            db.warehouses ++ ((⟨db.nextId, w.geo_name, w.warehouse_name⟩ : WarehouseRow) :: new) := by
          rw [hnew]
          simp
        refine ⟨hrec.1, hrec.2.1, le_trans (Nat.le_succ _) hrec.2.2.1,
          hrec.2.2.2.1, hrec.2.2.2.2.1, hrec.2.2.2.2.2.1,
          ⟨(⟨db.nextId, w.geo_name, w.warehouse_name⟩ : WarehouseRow) :: new, hware, ?_⟩, ?_⟩
        · intro wrow hwrow
          rcases List.mem_cons.mp hwrow with rfl | hwrow
          · exact le_refl _
          · exact le_trans (Nat.le_succ _) (hnewid wrow hwrow)
        · refine List.Forall₂.cons
            ⟨rfl, rfl, db.nextId, ⟨db.nextId, w.geo_name, w.warehouse_name⟩, rfl, ?_, rfl, rfl, rfl⟩
            hrec.2.2.2.2.2.2.2
          rw [hware]
          exact List.mem_append_right _ (List.mem_cons_self _ _)

lemma forall₂_mem_left {α β : Type} {R : α → β → Prop} :
    ∀ {l1 : List α} {l2 : List β}, List.Forall₂ R l1 l2 →
      ∀ a ∈ l1, ∃ b ∈ l2, R a b := by
  intro l1 l2 h
  induction h with
  | nil => intro a ha; cases ha
  | @cons x y lx ly hR hrest ih =>
    intro a ha
    rcases List.mem_cons.mp ha with rfl | ha
    · exact ⟨y, List.mem_cons_self _ _, hR⟩
    · obtain ⟨b, hb, hRb⟩ := ih a ha
      exact ⟨b, List.mem_cons_of_mem _ hb, hRb⟩

lemma forall₂_mem_right {α β : Type} {R : α → β → Prop} :
    ∀ {l1 : List α} {l2 : List β}, List.Forall₂ R l1 l2 →
      ∀ b ∈ l2, ∃ a ∈ l1, R a b := by
  intro l1 l2 h
  induction h with
  | nil => intro b hb; cases hb
  | @cons x y lx ly hR hrest ih =>
    intro b hb
    rcases List.mem_cons.mp hb with rfl | hb
    · exact ⟨x, List.mem_cons_self _ _, hR⟩
    · obtain ⟨a, ha, hRa⟩ := ih b hb
      exact ⟨a, List.mem_cons_of_mem _ ha, hRa⟩

lemma forall₂_zip_right {α α' β : Type} {R : α → α' → Prop} :
    ∀ {ws : List α} {ws' : List α'}, List.Forall₂ R ws ws' →
      ∀ rs : List β, List.Forall₂ (fun p p' => R p.1 p'.1 ∧ p.2 = p'.2)
        (ws.zip rs) (ws'.zip rs) := by
  intro ws ws' h
  induction h with
  | nil => intro rs; exact List.Forall₂.nil
  | @cons x y lx ly hR hrest ih =>
    intro rs
    cases rs with
    | nil => exact List.Forall₂.nil
    | cons r rrest => exact List.Forall₂.cons ⟨hR, rfl⟩ (ih rrest)

lemma forall₂_split_right {α β : Type} {R : α → β → Prop} :
    ∀ {l1 : List α} {x : α} {l2 : List α} {rs : List β},
      List.Forall₂ R (l1 ++ x :: l2) rs →
      ∃ rs1 y rs2, rs = rs1 ++ y :: rs2 ∧ List.Forall₂ R l1 rs1 ∧ R x y ∧
        List.Forall₂ R l2 rs2 := by
  intro l1
  induction l1 with
  | nil =>
    intro x l2 rs h
    cases h with
    | cons hR hrest => exact ⟨[], _, _, rfl, List.Forall₂.nil, hR, hrest⟩
  | cons a l1' ih =>
    intro x l2 rs h
    cases h with
    | cons hR hrest =>
      obtain ⟨rs1, y, rs2, rfl, hf1, hxy, hf2⟩ := ih hrest
      exact ⟨_ :: rs1, y, rs2, rfl, List.Forall₂.cons hR hf1, hxy, hf2⟩

lemma periodRowById_congr {db db' : DB} (h : db'.tariff_periods = db.tariff_periods)
    (pid : Nat) : periodRowById db' pid = periodRowById db pid := by
  unfold periodRowById
  rw [h]

lemma getCurrentPeriod_congr_tables {db db' : DB}
    (h1 : db'.box_rates = db.box_rates) (h2 : db'.tariff_periods = db.tariff_periods)
    (wid : Nat) (now : Instant) :
    getCurrentPeriodForWarehouse wid now db' = getCurrentPeriodForWarehouse wid now db :=
  getCurrentPeriod_congr wid now h1 (fun _ _ _ => periodRowById_congr h2 _)

lemma rateRowCount_congr {db db' : DB} (h : db'.box_rates = db.box_rates) (wid : Nat) :
    rateRowCount db' wid = rateRowCount db wid := by
  unfold rateRowCount
  rw [h]

lemma findExistingRate_congr {db db' : DB} (h : db'.box_rates = db.box_rates)
    (pid wid : Nat) : findExistingRate db' pid wid = findExistingRate db pid wid := by
  unfold findExistingRate
  rw [h]

lemma getCurrentPeriod_none_of_no_rows {db : DB} {wid : Nat} (now : Instant)
    (h : ∀ br ∈ db.box_rates, br.warehouse_id ≠ wid) :
    getCurrentPeriodForWarehouse wid now db = none := by
  unfold getCurrentPeriodForWarehouse
  have : db.box_rates.filterMap (locatorCandidate db wid now) = [] := by
    rw [List.filterMap_eq_nil_iff]
    intro br hbr
    unfold locatorCandidate
    have : ¬(br.warehouse_id == wid) = true := by simp [h br hbr]
    rw [if_neg this]
  rw [this]
  rfl

lemma attachedB_false_of_ge {db : DB} (hWF : MidWF db) {wid : Nat}
    (h : db.nextId ≤ wid) (pid : Nat) : attachedB db wid pid = false :=
  attachedB_false_iff.mpr (fun br hbr hw =>
    absurd (hw ▸ (hWF.br_lt br hbr).1) (not_lt.mpr (hw ▸ h)))

lemma attachedB_false_of_pid_ge {db : DB} (hWF : MidWF db) (wid : Nat) {pid : Nat}
    (h : db.nextId ≤ pid) : attachedB db wid pid = false :=
  attachedB_false_iff.mpr (fun br hbr _ =>
    Nat.ne_of_lt (lt_of_lt_of_le (hWF.br_lt br hbr).2 h))

lemma processWarehouses_ids_nodup :
    ∀ (ws : List ProcessedWarehouse) (db : DB),
      (db.warehouses.map (fun w => (w.geo_name, w.warehouse_name))).Nodup →
      (db.warehouses.map (fun w => w.id)).Nodup →
      (∀ w ∈ db.warehouses, w.id < db.nextId) →
      (ws.map pwKey).Nodup →
      ((processWarehouses ws db).1.map (fun w => w.id)).Nodup := by
  intro ws
  induction ws with
  | nil => intro db _ _ _ _; simp [processWarehouses]
  | cons w rest ih =>
    intro db hk hi hl hkeys
    have hkeystail : (rest.map pwKey).Nodup := by
      rw [List.map_cons, List.nodup_cons] at hkeys
      exact hkeys.2
    have hkeyhead : pwKey w ∉ rest.map pwKey := by
      rw [List.map_cons, List.nodup_cons] at hkeys
      exact hkeys.1
    cases hfind : db.warehouses.find? (fun row =>
        row.geo_name == w.geo_name && row.warehouse_name == w.warehouse_name) with
    | some ex =>
      have hexkey := List.find?_some hfind
      simp only [Bool.and_eq_true, beq_iff_eq] at hexkey
      have hexmem := List.mem_of_find?_eq_some hfind
      have hspec := processWarehouses_spec rest db hk hi hl
      cases hpw : processWarehouses rest db with
      | mk rest' db' =>
        rw [hpw] at hspec
        simp only [processWarehouses, hfind, hpw, List.map_cons, List.nodup_cons]
        constructor
        · intro hmem
          simp only [List.mem_map] at hmem
          obtain ⟨w1, hw1, hid1⟩ := hmem
          obtain ⟨a, ha, hR⟩ := forall₂_mem_right hspec.2.2.2.2.2.2.2 w1 hw1
          obtain ⟨hrg0, hrn0, wid1, row1, hwid1, hrow1, hrowid1, hrg, hrn⟩ := hR
          obtain ⟨new, hnew, -⟩ := hspec.2.2.2.2.2.2.1
          have hexmem1 : ex ∈ db'.warehouses := by
            rw [hnew]
            exact List.mem_append_left _ hexmem
          have hwid1e : wid1 = ex.id := by
            rw [hwid1] at hid1
            injection hid1.symm with h
            exact h.symm
          have hroweq : row1 = ex :=
            List.inj_on_of_nodup_map hspec.2.2.2.2.1 hrow1 hexmem1
              (hrowid1.trans hwid1e)
          apply hkeyhead
          have hkeq : pwKey a = pwKey w := by
            unfold pwKey
            rw [← hrg, ← hrn, hroweq, hexkey.1, hexkey.2]
          rw [← hkeq]
          exact List.mem_map_of_mem _ ha
        · have := ih db hk hi hl hkeystail
          rw [hpw] at this
          exact this
    | none =>
      have hnotkey : ∀ row ∈ db.warehouses,
          ¬(row.geo_name = w.geo_name ∧ row.warehouse_name = w.warehouse_name) := by
        intro row hrow
        have := List.find?_eq_none.mp hfind row hrow
        simp only [Bool.and_eq_true, beq_iff_eq, not_and] at this
        rintro ⟨h1, h2⟩
        exact this h1 h2
      obtain ⟨hk1, hi1, hl1⟩ :=
        extendWarehouses_wf db w.geo_name w.warehouse_name hk hi hl hnotkey
      have hspec := processWarehouses_spec rest { db with
        warehouses := db.warehouses ++ [⟨db.nextId, w.geo_name, w.warehouse_name⟩]
        nextId := db.nextId + 1 } hk1 hi1 hl1
      cases hpw : processWarehouses rest { db with
        warehouses := db.warehouses ++ [⟨db.nextId, w.geo_name, w.warehouse_name⟩]
        nextId := db.nextId + 1 } with
      | mk rest' db' =>
        rw [hpw] at hspec
        simp only [processWarehouses, hfind, hpw, List.map_cons, List.nodup_cons]
        constructor
        · intro hmem
          simp only [List.mem_map] at hmem
          obtain ⟨w1, hw1, hid1⟩ := hmem
          obtain ⟨a, ha, hR⟩ := forall₂_mem_right hspec.2.2.2.2.2.2.2 w1 hw1
          obtain ⟨hrg0, hrn0, wid1, row1, hwid1, hrow1, hrowid1, hrg, hrn⟩ := hR
          obtain ⟨new, hnew, -⟩ := hspec.2.2.2.2.2.2.1
          have hnrmem : (⟨db.nextId, w.geo_name, w.warehouse_name⟩ : WarehouseRow) ∈
              db'.warehouses := by
            rw [hnew]
            exact List.mem_append_left _ (List.mem_append_right _ (List.mem_cons_self _ _))
          have hwid1e : wid1 = db.nextId := by
            rw [hwid1] at hid1
            injection hid1.symm with h
            exact h.symm
          have hroweq : row1 = ⟨db.nextId, w.geo_name, w.warehouse_name⟩ :=
            List.inj_on_of_nodup_map hspec.2.2.2.2.1 hrow1 hnrmem
              (hrowid1.trans hwid1e)
          apply hkeyhead
          have hkeq : pwKey a = pwKey w := by
            unfold pwKey
            rw [← hrg, ← hrn, hroweq]
          rw [← hkeq]
          exact List.mem_map_of_mem _ ha
        · have := ih { db with
            warehouses := db.warehouses ++ [⟨db.nextId, w.geo_name, w.warehouse_name⟩]
            nextId := db.nextId + 1 } hk1 hi1 hl1 hkeystail
          rw [hpw] at this
          exact this

lemma MidWF_congr {db db' : DB} (h : MidWF db)
    (hp : db'.tariff_periods = db.tariff_periods) (hb : db'.box_rates = db.box_rates)
    (hn : db.nextId ≤ db'.nextId) : MidWF db' := by
  refine ⟨?_, ?_, ?_, ?_, ?_⟩
  · rw [hp]; exact h.pid_nodup
  · rw [hp]; intro p hpmem; exact lt_of_lt_of_le (h.pid_lt p hpmem) hn
  · rw [hb]
    intro br hbr
    exact ⟨lt_of_lt_of_le (h.br_lt br hbr).1 hn, lt_of_lt_of_le (h.br_lt br hbr).2 hn⟩
  · rw [hb]; exact h.pair_nodup
  · rw [hb]; exact h.no_share

lemma map_fst_zip_sublist {α β : Type} :
    ∀ (l1 : List α) (l2 : List β), ((l1.zip l2).map Prod.fst).Sublist l1 := by
  intro l1
  induction l1 with
  | nil => intro l2; simp
  | cons a l1' ih =>
    intro l2
    cases l2 with
    | nil => simp
    | cons b l2' =>
      simp only [List.zip_cons_cons, List.map_cons]
      exact (ih l2').cons₂ a

lemma zip_ids_nodup {ws' : List ProcessedWarehouse} {rs : List ProcessedBoxRate}
    (h : (ws'.map (fun w => w.id)).Nodup) :
    ((ws'.zip rs).map (fun wr => wr.1.id)).Nodup := by
  have h1 : (ws'.zip rs).map (fun wr => wr.1.id) =
      ((ws'.zip rs).map Prod.fst).map (fun w => w.id) := by
    rw [List.map_map]
    rfl
  rw [h1]
  exact ((map_fst_zip_sublist ws' rs).map (fun w => w.id)).nodup h

lemma reconcileSnapshot_eq (pd : ProcessedData) (now : Instant) (db : DB) :
    ∃ ws' db1 db2 rs pc rc,
      processWarehouses pd.warehouses db = (ws', db1) ∧
      processLoop pd.tariffPeriodEndDate now (ws'.zip pd.boxRates) db1 = (db2, rs, pc, rc) ∧
      (reconcileSnapshot pd now db).1 = saveBoxRates rs db2 ∧
      (reconcileSnapshot pd now db).2 =
        ⟨pc, pd.warehouses.length, rc⟩ := by
  cases hpw : processWarehouses pd.warehouses db with
  | mk ws' db1 =>
    cases hl : processLoop pd.tariffPeriodEndDate now (ws'.zip pd.boxRates) db1 with
    | mk db2 r3 =>
      obtain ⟨rs, pc, rc⟩ := r3
      refine ⟨ws', db1, db2, rs, pc, rc, rfl, hl, ?_, ?_⟩
      · simp [reconcileSnapshot, processTariffPeriodsAndRates, hpw, hl]
      · have hlen : ws'.length = pd.warehouses.length := by
          have := processWarehouses_fst_length pd.warehouses db
          rw [hpw] at this
          simpa using this
        simp [reconcileSnapshot, processTariffPeriodsAndRates, hpw, hl, hlen]

lemma processLoop_link_wids (endDate now : Instant) :
    ∀ (L : List (ProcessedWarehouse × ProcessedBoxRate)) (db : DB),
      List.Forall₂ (fun wr (r1 : ProcessedBoxRate) =>
        ∀ wid0, wr.1.id = some wid0 → r1.warehouse_id = some wid0)
        L (processLoop endDate now L db).2.1 := by
  intro L
  induction L with
  | nil => intro db; exact List.Forall₂.nil
  | cons wr rest ih =>
    intro db
    obtain ⟨w, r⟩ := wr
    cases hp : processPair endDate now db w r with
    | mk db1 rest1 =>
      obtain ⟨r1, pc1, rc1⟩ := rest1
      simp only [processLoop, hp]
      cases hl : processLoop endDate now rest db1 with
      | mk db2 rest2 =>
        obtain ⟨rs, pc, rc⟩ := rest2
        refine List.Forall₂.cons ?_ ?_
        · intro wid0 hwid0
          rcases processPair_cases endDate now db w r hwid0 with
            ⟨p0, -, -, heq⟩ | ⟨p0, -, -, heq⟩ | ⟨-, heq⟩ <;>
          · rw [hp] at heq
            injection heq with h1 h2
            injection h2 with h2 h3
            rw [h2]
        · have := ih db1
          rw [hl] at this
          exact this

lemma reconcile_untouched (pd : ProcessedData) (now : Instant) (db : DB)
    (hWF : WF db) {wid : Nat}
    (hno : ∀ wr ∈ (processWarehouses pd.warehouses db).1.zip pd.boxRates,
        wr.1.id ≠ some wid) :
    (∀ pid, attachedB (reconcileSnapshot pd now db).1 wid pid = attachedB db wid pid) ∧
    (∀ pid, attachedB db wid pid = true →
      periodRowById (reconcileSnapshot pd now db).1 pid = periodRowById db pid) ∧
    (∀ pid, findExistingRate (reconcileSnapshot pd now db).1 pid wid =
      findExistingRate db pid wid) ∧
    rateRowCount (reconcileSnapshot pd now db).1 wid = rateRowCount db wid := by
  obtain ⟨ws', db1, db2, rs, pc, rc, hpw, hloop, hF1, hF2⟩ := reconcileSnapshot_eq pd now db
  rw [hpw] at hno
  have hspec := processWarehouses_spec pd.warehouses db hWF.wkey_nodup hWF.wid_nodup hWF.wid_lt
  rw [hpw] at hspec
  have hWF1 : MidWF db1 := MidWF_congr hWF.toMidWF hspec.1 hspec.2.1 hspec.2.2.1
  have hLfr := processLoop_frames pd.tariffPeriodEndDate now (ws'.zip pd.boxRates) db1
  rw [hloop] at hLfr
  have hallsome : ∀ wr ∈ ws'.zip pd.boxRates, ∃ wid0, wr.1.id = some wid0 := by
    intro wr hwr
    have hw1 := (List.of_mem_zip hwr).1
    obtain ⟨a, ha, hR⟩ := forall₂_mem_right hspec.2.2.2.2.2.2.2 wr.1 hw1
    obtain ⟨-, -, wid0, row, hwid0, -, -, -, -⟩ := hR
    exact ⟨wid0, hwid0⟩
  have hlinks := processLoop_link_wids pd.tariffPeriodEndDate now (ws'.zip pd.boxRates) db1
  rw [hloop] at hlinks
  have hsave : ∀ r1 ∈ rs, ∀ w0, r1.warehouse_id = some w0 → w0 ≠ wid := by
    intro r1 hr1 w0 hw0
    obtain ⟨wr, hwr, hrel⟩ := forall₂_mem_right hlinks r1 hr1
    obtain ⟨wid0, hwid0⟩ := hallsome wr hwr
    have := hrel wid0 hwid0
    rw [this] at hw0
    injection hw0 with hw0
    subst hw0
    intro hcon
    exact hno wr hwr (hcon ▸ hwid0)
  have hsaveU := saveBoxRates_untouched rs db2 hsave
  -- pointwise frame for the attached rows of wid
  have hframe : ∀ pid, attachedB db wid pid = true →
      periodRowById db2 pid = periodRowById db1 pid := by
    intro pid hatt
    have hatt1 : attachedB db1 wid pid = true := by
      rw [attachedB_congr hspec.2.1]
      exact hatt
    have hlt : pid < db1.nextId := attached_lt hWF1 hatt1
    have := processLoop_frame pd.tariffPeriodEndDate now (ws'.zip pd.boxRates) db1 hWF1 hlt
      (by
        intro wr hwr wid0 hwid0
        by_contra hc
        rw [Bool.not_eq_false] at hc
        have : wid0 = wid := no_share_unique hWF1 hc hatt1
        exact hno wr hwr (this ▸ hwid0))
    rw [hloop] at this
    exact this
  rw [hF1]
  refine ⟨?_, ?_, ?_, ?_⟩
  · intro pid
    rw [hsaveU.1 pid, attachedB_congr hLfr.1, attachedB_congr hspec.2.1]
  · intro pid hatt
    rw [periodRowById_congr (saveBoxRates_frames rs db2).1 pid, hframe pid hatt,
      periodRowById_congr hspec.1 pid]
  · intro pid
    rw [hsaveU.2.1 pid, findExistingRate_congr hLfr.1, findExistingRate_congr hspec.2.1]
  · rw [hsaveU.2.2, rateRowCount_congr hLfr.1, rateRowCount_congr hspec.2.1]

lemma reconcile_touched (pd : ProcessedData) (now : Instant) (db : DB)
    (hWF : WF db) (hkeys : (pd.warehouses.map pwKey).Nodup)
    {w1 : ProcessedWarehouse} {r : ProcessedBoxRate} {wid : Nat}
    (hmem : (w1, r) ∈ (processWarehouses pd.warehouses db).1.zip pd.boxRates)
    (hwid : w1.id = some wid) :
    (∃ p0, getCurrentPeriodForWarehouse wid now db = some p0 ∧
        checkRatesMatchForWarehouse p0.id wid r.rates db = true ∧
        periodRowById (reconcileSnapshot pd now db).1 p0.id =
          some { p0 with end_date := some pd.tariffPeriodEndDate } ∧
        (∀ pid, attachedB db wid pid = true → pid ≠ p0.id →
          periodRowById (reconcileSnapshot pd now db).1 pid = periodRowById db pid) ∧
        (∀ pid, attachedB (reconcileSnapshot pd now db).1 wid pid =
          attachedB db wid pid) ∧
        (∃ br, findExistingRate (reconcileSnapshot pd now db).1 p0.id wid = some br ∧
          br.rates = r.rates) ∧
        (∀ pid, pid ≠ p0.id → findExistingRate (reconcileSnapshot pd now db).1 pid wid =
          findExistingRate db pid wid) ∧
        rateRowCount (reconcileSnapshot pd now db).1 wid = rateRowCount db wid) ∨
    (∃ p0 pidN, getCurrentPeriodForWarehouse wid now db = some p0 ∧
        checkRatesMatchForWarehouse p0.id wid r.rates db = false ∧
        db.nextId ≤ pidN ∧
        periodRowById (reconcileSnapshot pd now db).1 p0.id =
          some { p0 with end_date := some now } ∧
        periodRowById (reconcileSnapshot pd now db).1 pidN =
          some ⟨pidN, now, some pd.tariffPeriodEndDate⟩ ∧
        (∀ pid, attachedB db wid pid = true → pid ≠ p0.id →
          periodRowById (reconcileSnapshot pd now db).1 pid = periodRowById db pid) ∧
        (∀ pid, attachedB (reconcileSnapshot pd now db).1 wid pid = true ↔
          (attachedB db wid pid = true ∨ pid = pidN)) ∧
        (∃ br, findExistingRate (reconcileSnapshot pd now db).1 pidN wid = some br ∧
          br.rates = r.rates) ∧
        (∀ pid, pid ≠ pidN → findExistingRate (reconcileSnapshot pd now db).1 pid wid =
          findExistingRate db pid wid) ∧
        rateRowCount (reconcileSnapshot pd now db).1 wid = rateRowCount db wid + 1) ∨
    (getCurrentPeriodForWarehouse wid now db = none ∧
        ∃ pidN, db.nextId ≤ pidN ∧
        periodRowById (reconcileSnapshot pd now db).1 pidN =
          some ⟨pidN, now, some pd.tariffPeriodEndDate⟩ ∧
        (∀ pid, attachedB db wid pid = true →
          periodRowById (reconcileSnapshot pd now db).1 pid = periodRowById db pid) ∧
        (∀ pid, attachedB (reconcileSnapshot pd now db).1 wid pid = true ↔
          (attachedB db wid pid = true ∨ pid = pidN)) ∧
        (∃ br, findExistingRate (reconcileSnapshot pd now db).1 pidN wid = some br ∧
          br.rates = r.rates) ∧
        (∀ pid, pid ≠ pidN → findExistingRate (reconcileSnapshot pd now db).1 pid wid =
          findExistingRate db pid wid) ∧
        rateRowCount (reconcileSnapshot pd now db).1 wid = rateRowCount db wid + 1) := by
  obtain ⟨ws', db1, db2, rs, pc, rc, hpw, hloop, hF1, hF2⟩ := reconcileSnapshot_eq pd now db
  rw [hpw] at hmem
  have hspec := processWarehouses_spec pd.warehouses db hWF.wkey_nodup hWF.wid_nodup hWF.wid_lt
  rw [hpw] at hspec
  have hWF1 : MidWF db1 := MidWF_congr hWF.toMidWF hspec.1 hspec.2.1 hspec.2.2.1
  have hLfr := processLoop_frames pd.tariffPeriodEndDate now (ws'.zip pd.boxRates) db1
  rw [hloop] at hLfr
  have hndws : (ws'.map (fun w => w.id)).Nodup := by
    have := processWarehouses_ids_nodup pd.warehouses db hWF.wkey_nodup
      hWF.wid_nodup hWF.wid_lt hkeys
    rw [hpw] at this
    exact this
  have hnd : ((ws'.zip pd.boxRates).map (fun wr => wr.1.id)).Nodup := zip_ids_nodup hndws
  have hallsome : ∀ wr ∈ ws'.zip pd.boxRates, ∃ wid0, wr.1.id = some wid0 := by
    intro wr hwr
    have hw1m := (List.of_mem_zip hwr).1
    obtain ⟨a, ha, hR⟩ := forall₂_mem_right hspec.2.2.2.2.2.2.2 wr.1 hw1m
    obtain ⟨-, -, wid0, row, hwid0, -, -, -, -⟩ := hR
    exact ⟨wid0, hwid0⟩
  have hLspec := processLoop_spec pd.tariffPeriodEndDate now (ws'.zip pd.boxRates) db1 hWF1 hnd
  rw [hloop] at hLspec
  -- split the zipped list around our record
  obtain ⟨L1, L2, hLsplit⟩ := List.append_of_mem hmem
  rw [hLsplit] at hLspec
  obtain ⟨rs1, r1, rs2, hrs, hf1, hR, hf2⟩ := forall₂_split_right hLspec
  have hnd2 : ((L1 ++ (w1, r) :: L2).map (fun wr => wr.1.id)).Nodup := by
    rw [← hLsplit]
    exact hnd
  have hsibling : ∀ wr' ∈ L1 ++ L2, ∀ wid0, wr'.1.id = some wid0 → wid0 ≠ wid := by
    rw [List.map_append, List.map_cons, List.nodup_middle] at hnd2
    have hx := (List.nodup_cons.mp hnd2).1
    intro wr' hwr' wid0 hwid0 hcon
    subst hcon
    apply hx
    have hmm : wr'.1.id ∈ (L1 ++ L2).map (fun wr => wr.1.id) :=
      List.mem_map_of_mem _ hwr'
    rw [List.map_append] at hmm
    have : (w1, r).1.id = wr'.1.id := by
      show w1.id = wr'.1.id
      rw [hwid, hwid0]
    rw [this]
    exact hmm
  have hmemsplit : ∀ wr' ∈ L1 ++ L2, wr' ∈ ws'.zip pd.boxRates := by
    intro wr' hwr'
    rw [hLsplit]
    rcases List.mem_append.mp hwr' with hin | hin
    · exact List.mem_append_left _ hin
    · exact List.mem_append_right _ (List.mem_cons_of_mem _ hin)
  have hsave_of : ∀ (Lx : List (ProcessedWarehouse × ProcessedBoxRate))
      (rsx : List ProcessedBoxRate),
      List.Forall₂ (RecordPost pd.tariffPeriodEndDate now db1 db2) Lx rsx →
      (∀ wr' ∈ Lx, wr' ∈ L1 ++ L2) →
      ∀ r' ∈ rsx, ∀ w0, r'.warehouse_id = some w0 → w0 ≠ wid := by
    intro Lx rsx hfx hsub r' hr' w0 hw0
    obtain ⟨wr', hwr', hRP⟩ := forall₂_mem_right hfx r' hr'
    obtain ⟨wid0, hwid0⟩ := hallsome wr' (hmemsplit wr' (hsub wr' hwr'))
    obtain ⟨wp, rp⟩ := wr'
    have hwp : wp.id = some wid0 := hwid0
    simp only [RecordPost, hwp] at hRP
    obtain ⟨-, hrw', -⟩ := hRP
    rw [hrw'] at hw0
    injection hw0 with hw0
    subst hw0
    exact hsibling _ (hsub _ hwr') wid0 hwid0
  have h1save := hsave_of L1 rs1 hf1 (fun wr' h => List.mem_append_left _ h)
  have h2save := hsave_of L2 rs2 hf2 (fun wr' h => List.mem_append_right _ h)
  -- our record
  simp only [RecordPost, hwid] at hR
  obtain ⟨hrr, hrw, pidk, hrp, hcase⟩ := hR
  have hloc_eq : getCurrentPeriodForWarehouse wid now db1 =
      getCurrentPeriodForWarehouse wid now db :=
    getCurrentPeriod_congr_tables hspec.2.1 hspec.1 wid now
  have hsaveT := saveBoxRates_touched rs1 rs2 db2 r1 hrw hrp h1save h2save
  have hrs1 : rs = rs1 ++ r1 :: rs2 := hrs
  have hdbF : (reconcileSnapshot pd now db).1 = saveBoxRates (rs1 ++ r1 :: rs2) db2 := by
    rw [hF1, hrs1]
  have hPsave : (saveBoxRates (rs1 ++ r1 :: rs2) db2).tariff_periods =
      db2.tariff_periods := (saveBoxRates_frames _ _).1
  have hboxF : (saveBoxRates (rs1 ++ r1 :: rs2) db2).warehouses = db2.warehouses :=
    (saveBoxRates_frames _ _).2.1
  have hatt21 : ∀ wid0 pid, attachedB db2 wid0 pid = attachedB db wid0 pid := by
    intro wid0 pid
    rw [attachedB_congr hLfr.1, attachedB_congr hspec.2.1]
  have hfind21 : ∀ pid wid0, findExistingRate db2 pid wid0 = findExistingRate db pid wid0 := by
    intro pid wid0
    rw [findExistingRate_congr hLfr.1, findExistingRate_congr hspec.2.1]
  have hcount21 : ∀ wid0, rateRowCount db2 wid0 = rateRowCount db wid0 := by
    intro wid0
    rw [rateRowCount_congr hLfr.1, rateRowCount_congr hspec.2.1]
  have hper1 : ∀ pid, periodRowById db1 pid = periodRowById db pid :=
    fun pid => periodRowById_congr hspec.1 pid
  rcases hcase with ⟨p0, hloc1, hchk1, hpeq, hrow, hframe⟩ |
    ⟨p0, hloc1, hchk1, hge, hrow0, hrowN, hframe⟩ | ⟨hloc1, hge, hrowN, hframe⟩
  · -- extend
    subst hpeq
    rw [hloc_eq] at hloc1
    rw [checkRates_congr hspec.2.1] at hchk1
    obtain ⟨⟨br0, hbr0, hbw0, hbp0⟩, -, -⟩ := getCurrentPeriod_some hloc1
    have hatt0 : attachedB db wid p0.id = true :=
      attachedB_true_iff.mpr ⟨br0, hbr0, hbw0, hbp0⟩
    refine Or.inl ⟨p0, hloc1, hchk1, ?_, ?_, ?_, ?_, ?_, ?_⟩
    · rw [hdbF, periodRowById_congr hPsave]
      exact hrow
    · intro pid hatt hne
      rw [hdbF, periodRowById_congr hPsave, ← hper1 pid]
      exact hframe pid (by rw [attachedB_congr hspec.2.1]; exact hatt) hne
    · intro pid
      rw [hdbF]
      apply bool_eq_of_iff
      rw [hsaveT.1 pid, hatt21 wid pid]
      constructor
      · rintro (h | rfl)
        · exact h
        · exact hatt0
      · exact Or.inl
    · obtain ⟨br, hbr, hbrr⟩ := hsaveT.2.1
      exact ⟨br, by rw [hdbF]; exact hbr, by rw [hbrr, hrr]⟩
    · intro pid hne
      rw [hdbF, hsaveT.2.2.1 pid hne, hfind21 pid wid]
    · rw [hdbF, hsaveT.2.2.2, hcount21 wid, hatt21 wid p0.id, if_pos hatt0, Nat.add_zero]
  · -- rollover
    rw [hloc_eq] at hloc1
    rw [checkRates_congr hspec.2.1] at hchk1
    have hgeN : db.nextId ≤ pidk := le_trans hspec.2.2.1 hge
    have hattN : attachedB db wid pidk = false :=
      attachedB_false_of_pid_ge hWF.toMidWF wid hgeN
    refine Or.inr (Or.inl ⟨p0, pidk, hloc1, hchk1, hgeN, ?_, ?_, ?_, ?_, ?_, ?_, ?_⟩)
    · rw [hdbF, periodRowById_congr hPsave]
      exact hrow0
    · rw [hdbF, periodRowById_congr hPsave]
      exact hrowN
    · intro pid hatt hne
      rw [hdbF, periodRowById_congr hPsave, ← hper1 pid]
      exact hframe pid (by rw [attachedB_congr hspec.2.1]; exact hatt) hne
    · intro pid
      rw [hdbF, hsaveT.1 pid, hatt21 wid pid]
    · obtain ⟨br, hbr, hbrr⟩ := hsaveT.2.1
      exact ⟨br, by rw [hdbF]; exact hbr, by rw [hbrr, hrr]⟩
    · intro pid hne
      rw [hdbF, hsaveT.2.2.1 pid hne, hfind21 pid wid]
    · rw [hdbF, hsaveT.2.2.2, hcount21 wid, hatt21 wid pidk, if_neg (by rw [hattN]; simp)]
  · -- create
    rw [hloc_eq] at hloc1
    have hgeN : db.nextId ≤ pidk := le_trans hspec.2.2.1 hge
    have hattN : attachedB db wid pidk = false :=
      attachedB_false_of_pid_ge hWF.toMidWF wid hgeN
    refine Or.inr (Or.inr ⟨hloc1, pidk, hgeN, ?_, ?_, ?_, ?_, ?_, ?_⟩)
    · rw [hdbF, periodRowById_congr hPsave]
      exact hrowN
    · intro pid hatt
      rw [hdbF, periodRowById_congr hPsave, ← hper1 pid]
      exact hframe pid (by rw [attachedB_congr hspec.2.1]; exact hatt)
    · intro pid
      rw [hdbF, hsaveT.1 pid, hatt21 wid pid]
    · obtain ⟨br, hbr, hbrr⟩ := hsaveT.2.1
      exact ⟨br, by rw [hdbF]; exact hbr, by rw [hbrr, hrr]⟩
    · intro pid hne
      rw [hdbF, hsaveT.2.2.1 pid hne, hfind21 pid wid]
    · rw [hdbF, hsaveT.2.2.2, hcount21 wid, hatt21 wid pidk, if_neg (by rw [hattN]; simp)]

lemma activeAttachedCount_le_one {db : DB} {wid : Nat} {t : Instant}
    (hnd : (db.tariff_periods.map (fun p => p.id)).Nodup)
    (h : ∀ pid1 pid2, ActivePidAt db wid pid1 t → ActivePidAt db wid pid2 t →
      pid1 = pid2) :
    activeAttachedCount db wid t ≤ 1 := by
  unfold activeAttachedCount
  rw [List.countP_eq_length_filter]
  have hsub := List.filter_sublist (p := fun p => attachedB db wid p.id && activeB p t)
    db.tariff_periods
  have hfnd : ((db.tariff_periods.filter
      (fun p => attachedB db wid p.id && activeB p t)).map (fun p => p.id)).Nodup :=
    (hsub.map (fun p => p.id)).nodup hnd
  have hact : ∀ p ∈ db.tariff_periods.filter
      (fun p => attachedB db wid p.id && activeB p t), ActivePidAt db wid p.id t := by
    intro p hp
    obtain ⟨hpm, hpred⟩ := List.mem_filter.mp hp
    obtain ⟨h1, h2⟩ := Bool.and_eq_true _ _ |>.mp hpred
    exact ⟨h1, p, periodRowById_self hnd hpm, h2⟩
  cases hfil : db.tariff_periods.filter (fun p => attachedB db wid p.id && activeB p t) with
  | nil => simp
  | cons a l =>
    cases l with
    | nil => simp
    | cons b l2 =>
      exfalso
      rw [hfil] at hfnd hact
      have ha := hact a (List.mem_cons_self _ _)
      have hb := hact b (List.mem_cons_of_mem _ (List.mem_cons_self _ _))
      have heq := h a.id b.id ha hb
      rw [List.map_cons, List.nodup_cons] at hfnd
      exact hfnd.1 (heq ▸ List.mem_map_of_mem (fun p => p.id)
        (List.mem_cons_self b l2))

lemma WInv_of_not_attached {db : DB} {wid : Nat} (n : Instant)
    (h : ∀ br ∈ db.box_rates, br.warehouse_id ≠ wid) : WInv db wid n := by
  constructor
  · intro p _ hatt
    obtain ⟨br, hbr, hbw, -⟩ := attachedB_true_iff.mp hatt
    exact absurd hbw (h br hbr)
  · intro p1 _ p2 _ hatt1 _ _ _
    obtain ⟨br, hbr, hbw, -⟩ := attachedB_true_iff.mp hatt1
    exact absurd hbw (h br hbr)

lemma reconcile_pid_nodup (pd : ProcessedData) (now : Instant) (db : DB) (hWF : WF db) :
    ((reconcileSnapshot pd now db).1.tariff_periods.map (fun p => p.id)).Nodup := by
  obtain ⟨ws', db1, db2, rs, pc, rc, hpw, hloop, hF1, hF2⟩ := reconcileSnapshot_eq pd now db
  have hspec := processWarehouses_spec pd.warehouses db hWF.wkey_nodup hWF.wid_nodup hWF.wid_lt
  rw [hpw] at hspec
  have hWF1 : MidWF db1 := MidWF_congr hWF.toMidWF hspec.1 hspec.2.1 hspec.2.2.1
  have hWF2 : MidWF db2 := by
    have := processLoop_midWF pd.tariffPeriodEndDate now (ws'.zip pd.boxRates) db1 hWF1
    rw [hloop] at this
    exact this
  rw [hF1]
  have := (saveBoxRates_frames rs db2).1
  rw [this]
  exact hWF2.pid_nodup

lemma openAfterB_of_active {p : PeriodRow} {t n : Instant} (hn : n < t)
    (hact : activeB p t = true) : openAfterB p n = true := by
  unfold activeB endCoversB at hact
  unfold openAfterB
  obtain ⟨-, h2⟩ := Bool.and_eq_true _ _ |>.mp hact
  cases he : p.end_date with
  | none => rfl
  | some e =>
    rw [he] at h2
    simp only [decide_eq_true_eq] at h2 ⊢
    exact lt_of_lt_of_le hn h2

lemma reconcile_no_overlap (pd : ProcessedData) (db : DB) (now n : Instant)
    (hWF : WF db) (hInv : ∀ wid, WInv db wid n)
    (hkeys : (pd.warehouses.map pwKey).Nodup)
    (hn : n < now) (wid : Nat) (t : Instant) (ht : now < t) :
    activeAttachedCount (reconcileSnapshot pd now db).1 wid t ≤ 1 := by
  have hnt : n < t := lt_trans hn ht
  apply activeAttachedCount_le_one (reconcile_pid_nodup pd now db hWF)
  by_cases hc : ∃ wr ∈ (processWarehouses pd.warehouses db).1.zip pd.boxRates,
      wr.1.id = some wid
  · obtain ⟨⟨w1, r⟩, hmemz, hwidz⟩ := hc
    have hmaster := reconcile_touched pd now db hWF hkeys hmemz hwidz
    rcases hmaster with
      ⟨p0, hloc, hchk, hrowP0, hframe, hattEq, hfindS, hfindO, hcount⟩ |
      ⟨p0, pidN, hloc, hchk, hgeN, hrow0, hrowN, hframe, hattEq, hfindS, hfindO, hcount⟩ |
      ⟨hloc, pidN, hgeN, hrowN, hframe, hattEq, hfindS, hfindO, hcount⟩
    · -- extend: the only possible active pid is p0.id
      obtain ⟨⟨br0, hbr0, hbw0, hbp0⟩, hrow00, hact0⟩ := getCurrentPeriod_some hloc
      have hatt0 : attachedB db wid p0.id = true :=
        attachedB_true_iff.mpr ⟨br0, hbr0, hbw0, hbp0⟩
      have hmem0 := (periodRowById_mem hrow00).1
      have hopen0 : openAfterB p0 n = true :=
        openAfterB_of_active hn hact0
      have huni : ∀ pid, ActivePidAt (reconcileSnapshot pd now db).1 wid pid t →
          pid = p0.id := by
        rintro pid ⟨hatt, p, hrow, hact⟩
        by_contra hne
        have hattdb : attachedB db wid pid = true := by
          rw [← hattEq pid]
          exact hatt
        rw [hframe pid hattdb hne] at hrow
        have hpm := periodRowById_mem hrow
        have hopen : openAfterB p n = true := openAfterB_of_active hnt hact
        exact hne (hpm.2 ▸ (hInv wid).open_unique p hpm.1 p0 hmem0
          (hpm.2 ▸ hattdb) hopen hatt0 hopen0)
      intro pid1 pid2 h1 h2
      rw [huni pid1 h1, huni pid2 h2]
    · -- rollover: the only possible active pid is the fresh pidN
      obtain ⟨⟨br0, hbr0, hbw0, hbp0⟩, hrow00, hact0⟩ := getCurrentPeriod_some hloc
      have hatt0 : attachedB db wid p0.id = true :=
        attachedB_true_iff.mpr ⟨br0, hbr0, hbw0, hbp0⟩
      have hmem0 := (periodRowById_mem hrow00).1
      have hopen0 : openAfterB p0 n = true := openAfterB_of_active hn hact0
      have huni : ∀ pid, ActivePidAt (reconcileSnapshot pd now db).1 wid pid t →
          pid = pidN := by
        rintro pid ⟨hatt, p, hrow, hact⟩
        by_contra hneN
        rcases (hattEq pid).mp hatt with hattdb | hpidN
        · by_cases hne0 : pid = p0.id
          · subst hne0
            rw [hrow0] at hrow
            injection hrow with hrow
            subst hrow
            unfold activeB endCoversB at hact
            obtain ⟨-, h2⟩ := Bool.and_eq_true _ _ |>.mp hact
            simp only [decide_eq_true_eq] at h2
            exact absurd h2 (not_le.mpr ht)
          · rw [hframe pid hattdb hne0] at hrow
            have hpm := periodRowById_mem hrow
            have hopen : openAfterB p n = true := openAfterB_of_active hnt hact
            exact hne0 (hpm.2 ▸ (hInv wid).open_unique p hpm.1 p0 hmem0
              (hpm.2 ▸ hattdb) hopen hatt0 hopen0)
        · exact hneN hpidN
      intro pid1 pid2 h1 h2
      rw [huni pid1 h1, huni pid2 h2]
    · -- create: the only possible active pid is the fresh pidN
      have huni : ∀ pid, ActivePidAt (reconcileSnapshot pd now db).1 wid pid t →
          pid = pidN := by
        rintro pid ⟨hatt, p, hrow, hact⟩
        by_contra hneN
        rcases (hattEq pid).mp hatt with hattdb | hpidN
        · rw [hframe pid hattdb] at hrow
          have hpm := periodRowById_mem hrow
          obtain ⟨br, hbr, hbw, hbp⟩ := attachedB_true_iff.mp hattdb
          have hinact := getCurrentPeriod_none hloc br hbr hbw p (hbp ▸ hrow)
          -- p starts by n < now but is not active at now, so it ended before now
          have hstart : p.start_date ≤ n := (hInv wid).start_le p hpm.1 (hpm.2 ▸ hattdb)
          unfold activeB endCoversB at hinact hact
          obtain ⟨-, h2⟩ := Bool.and_eq_true _ _ |>.mp hact
          have hsn : p.start_date ≤ now := le_trans hstart (le_of_lt hn)
          rw [decide_eq_true hsn, Bool.true_and] at hinact
          cases he : p.end_date with
          | none =>
            rw [he] at hinact
            exact absurd hinact (by simp)
          | some e =>
            rw [he] at hinact h2
            have hne : ¬(now ≤ e) := of_decide_eq_false hinact
            have hte : t ≤ e := of_decide_eq_true h2
            exact hne (le_trans (le_of_lt ht) hte)
        · exact hneN hpidN
      intro pid1 pid2 h1 h2
      rw [huni pid1 h1, huni pid2 h2]
  · push_neg at hc
    have hun := reconcile_untouched pd now db hWF (by
      intro wr hwr
      exact hc wr hwr)
    rintro pid1 pid2 ⟨hatt1, p1, hrow1, hact1⟩ ⟨hatt2, p2, hrow2, hact2⟩
    rw [hun.1 pid1] at hatt1
    rw [hun.1 pid2] at hatt2
    rw [hun.2.1 pid1 hatt1] at hrow1
    rw [hun.2.1 pid2 hatt2] at hrow2
    have hpm1 := periodRowById_mem hrow1
    have hpm2 := periodRowById_mem hrow2
    rw [← hpm1.2, ← hpm2.2]
    exact (hInv wid).open_unique p1 hpm1.1 p2 hpm2.1 (hpm1.2 ▸ hatt1)
      (openAfterB_of_active hnt hact1) (hpm2.2 ▸ hatt2)
      (openAfterB_of_active hnt hact2)

/-- C1: corrected.  The no-overlap invariant as claimed — including at the
batch's own reference instant `now` — is false: the rollover step leaves
both the closed period (whose inclusive end is set to `now`) and the new
period (whose start is `now`) active at `now` itself (see the
counterexample).  Amended statement: after a completed run of
`transformAndSaveDataToDb` over a well-formed store whose attached periods
all started by some instant `n < now` with at most one still open after
`n`, and a snapshot with distinct natural keys, at most one period attached
to any warehouse is active at every instant strictly after `now`. -/
theorem c1_no_overlap_strictly_after_now
    (wbData : WbWarehouseBoxRatesResponse) (db : DB) (now n : Instant)
    (hWF : WF db) (hInv : ∀ wid, WInv db wid n)
    (hkeys : (wbData.warehouseList.map (fun w => (w.geoName, w.warehouseName))).Nodup)
    (hn : n < now) (wid : Nat) (t : Instant) (ht : now < t) :
    activeAttachedCount (transformAndSaveDataToDb wbData now db).1 wid t ≤ 1 := by
  rw [transformAndSaveDataToDb_eq]
  apply reconcile_no_overlap _ _ _ n hWF hInv _ hn wid t ht
  unfold convertWbDataToProcessedData pwKey
  rw [List.map_map]
  exact hkeys

theorem c1_no_overlap_strictly_after_now_witness :
    activeAttachedCount (transformAndSaveDataToDb exWbFar 50 exDb).1 0 60 ≤ 1 :=
  c1_no_overlap_strictly_after_now exWbFar exDb 50 10
    ⟨⟨by decide, by decide, by decide, by decide, by decide⟩, by decide, by decide, by decide⟩
    (by
      intro wid
      by_cases h : wid = 0
      · subst h
        exact ⟨by decide, by decide⟩
      · refine WInv_of_not_attached 10 ?_
        intro br hbr
        have hbr0 : br ∈ [exRateRow] := hbr
        rw [List.mem_singleton.mp hbr0]
        exact fun hc => h hc.symm)
    (by decide) (by decide) 0 60 (by decide)

/-- C3: confirmed.  For every snapshot record linked to warehouse `wid`
whose active period's bound vector mismatches the incoming vector (some
field beyond the 0.01 tolerance), the run closes the existing period at
`now`, inserts a fresh period `[now, H]`, binds exactly one new rate row
carrying the incoming vector to it, and the record's step reports +1
period and +1 rate. -/
theorem c3_mismatch_rollover
    (pd : ProcessedData) (db : DB) (now : Instant)
    (hWF : WF db) (hkeys : (pd.warehouses.map pwKey).Nodup)
    (w1 : ProcessedWarehouse) (r : ProcessedBoxRate) (wid : Nat)
    (hmem : (w1, r) ∈ (processWarehouses pd.warehouses db).1.zip pd.boxRates)
    (hwid : w1.id = some wid)
    (p0 : PeriodRow)
    (hloc : getCurrentPeriodForWarehouse wid now db = some p0)
    (hchk : checkRatesMatchForWarehouse p0.id wid r.rates db = false) :
    ∃ pidN, db.nextId ≤ pidN ∧
      periodRowById (reconcileSnapshot pd now db).1 p0.id =
        some { p0 with end_date := some now } ∧
      periodRowById (reconcileSnapshot pd now db).1 pidN =
        some ⟨pidN, now, some pd.tariffPeriodEndDate⟩ ∧
      (∃ br, findExistingRate (reconcileSnapshot pd now db).1 pidN wid = some br ∧
        br.rates = r.rates) ∧
      (∀ pid, pid ≠ pidN → findExistingRate (reconcileSnapshot pd now db).1 pid wid =
        findExistingRate db pid wid) ∧
      rateRowCount (reconcileSnapshot pd now db).1 wid = rateRowCount db wid + 1 ∧
      (processPair pd.tariffPeriodEndDate now db w1 r).2.2 = (1, 1) := by
  have hpc : (processPair pd.tariffPeriodEndDate now db w1 r).2.2 = (1, 1) := by
    rcases processPair_cases pd.tariffPeriodEndDate now db w1 r hwid with
      ⟨p0', hloc', hchk', heq⟩ | ⟨p0', hloc', hchk', heq⟩ | ⟨hloc', heq⟩
    · rw [hloc] at hloc'
      injection hloc' with hloc'
      subst hloc'
      rw [hchk] at hchk'
      cases hchk'
    · rw [heq]
    · rw [hloc] at hloc'
      cases hloc'
  rcases reconcile_touched pd now db hWF hkeys hmem hwid with
    ⟨p0', hloc', hchk', -⟩ |
    ⟨p0', pidN, hloc', hchk', hgeN, hrow0, hrowN, -, -, hfindS, hfindO, hcount⟩ |
    ⟨hloc', -⟩
  · rw [hloc] at hloc'
    injection hloc' with hloc'
    subst hloc'
    rw [hchk] at hchk'
    cases hchk'
  · rw [hloc] at hloc'
    injection hloc' with hloc'
    subst hloc'
    exact ⟨pidN, hgeN, hrow0, hrowN, hfindS, hfindO, hcount, hpc⟩
  · rw [hloc] at hloc'
    cases hloc'

theorem c3_mismatch_rollover_witness :
    ∃ pidN, exDb.nextId ≤ pidN ∧
      periodRowById (reconcileSnapshot (convertWbDataToProcessedData exWbFar) 50 exDb).1
          exPeriod.id = some { exPeriod with end_date := some 50 } ∧
      periodRowById (reconcileSnapshot (convertWbDataToProcessedData exWbFar) 50 exDb).1
          pidN = some ⟨pidN, 50,
            some (convertWbDataToProcessedData exWbFar).tariffPeriodEndDate⟩ ∧
      (∃ br, findExistingRate
          (reconcileSnapshot (convertWbDataToProcessedData exWbFar) 50 exDb).1 pidN 0 =
          some br ∧ br.rates = (⟨none, none, exVecFar⟩ : ProcessedBoxRate).rates) ∧
      (∀ pid, pid ≠ pidN →
        findExistingRate
          (reconcileSnapshot (convertWbDataToProcessedData exWbFar) 50 exDb).1 pid 0 =
        findExistingRate exDb pid 0) ∧
      rateRowCount (reconcileSnapshot (convertWbDataToProcessedData exWbFar) 50 exDb).1 0 =
        rateRowCount exDb 0 + 1 ∧
      (processPair (convertWbDataToProcessedData exWbFar).tariffPeriodEndDate 50 exDb
        ⟨some 0, "A", "W"⟩ ⟨none, none, exVecFar⟩).2.2 = (1, 1) := by
  have hzip : (processWarehouses (convertWbDataToProcessedData exWbFar).warehouses
      exDb).1.zip (convertWbDataToProcessedData exWbFar).boxRates =
      [((⟨some 0, "A", "W"⟩ : ProcessedWarehouse),
        (⟨none, none, exVecFar⟩ : ProcessedBoxRate))] := by
    with_unfolding_all rfl
  exact c3_mismatch_rollover (convertWbDataToProcessedData exWbFar) exDb 50
    ⟨⟨by decide, by decide, by decide, by decide, by decide⟩, by decide, by decide, by decide⟩
    (by decide)
    ⟨some 0, "A", "W"⟩ ⟨none, none, exVecFar⟩ 0
    (by rw [hzip]; exact List.mem_singleton.mpr rfl)
    rfl exPeriod (by with_unfolding_all rfl) (by with_unfolding_all rfl)

/-- C7: confirmed.  A snapshot record whose natural key was never seen
before gets a fresh warehouse entity row, no active period exists for it,
and the run inserts a period `[now, H]` and exactly one rate row bound to
it carrying the incoming vector; the record's step reports +1 period and
+1 rate. -/
theorem c7_first_seen_creates_entity_period_rate
    (pd : ProcessedData) (db : DB) (now : Instant)
    (hWF : WF db) (hkeys : (pd.warehouses.map pwKey).Nodup)
    (w1 : ProcessedWarehouse) (r : ProcessedBoxRate) (wid : Nat)
    (hmem : (w1, r) ∈ (processWarehouses pd.warehouses db).1.zip pd.boxRates)
    (hwid : w1.id = some wid)
    (hfresh : ∀ row ∈ db.warehouses,
      (row.geo_name, row.warehouse_name) ≠ (w1.geo_name, w1.warehouse_name)) :
    db.nextId ≤ wid ∧
    (∀ rowO ∈ db.warehouses, rowO.id ≠ wid) ∧
    (∃ row ∈ (reconcileSnapshot pd now db).1.warehouses,
        row.id = wid ∧ row.geo_name = w1.geo_name ∧
        row.warehouse_name = w1.warehouse_name) ∧
    getCurrentPeriodForWarehouse wid now db = none ∧
    rateRowCount db wid = 0 ∧
    (∃ pidN, db.nextId ≤ pidN ∧
      periodRowById (reconcileSnapshot pd now db).1 pidN =
        some ⟨pidN, now, some pd.tariffPeriodEndDate⟩ ∧
      (∃ br, findExistingRate (reconcileSnapshot pd now db).1 pidN wid = some br ∧
        br.rates = r.rates) ∧
      rateRowCount (reconcileSnapshot pd now db).1 wid = 1) ∧
    (processPair pd.tariffPeriodEndDate now db w1 r).2.2 = (1, 1) := by
  obtain ⟨ws', db1, db2, rs, pc, rc, hpw, hloop, hF1, hF2⟩ := reconcileSnapshot_eq pd now db
  have hspec := processWarehouses_spec pd.warehouses db hWF.wkey_nodup hWF.wid_nodup hWF.wid_lt
  rw [hpw] at hspec
  have hw1m : w1 ∈ ws' := by
    have := (List.of_mem_zip hmem).1
    rw [hpw] at this
    exact this
  obtain ⟨a, ha, hkey1, hkey2, wid0, row, hwid0, hrowm, hrowid, hrowg, hroww⟩ :=
    forall₂_mem_right hspec.2.2.2.2.2.2.2 w1 hw1m
  rw [hwid] at hwid0
  injection hwid0 with hwid0
  subst hwid0
  obtain ⟨new, hnew, hnewid⟩ := hspec.2.2.2.2.2.2.1
  have hrownew : row ∈ new := by
    rw [hnew] at hrowm
    rcases List.mem_append.mp hrowm with hold | hnewm
    · exact absurd (by rw [hrowg, hroww, ← hkey1, ← hkey2]) (hfresh row hold)
    · exact hnewm
  have hge : db.nextId ≤ wid := hrowid ▸ hnewid row hrownew
  have hnotold : ∀ rowO ∈ db.warehouses, rowO.id ≠ wid := by
    intro rowO hO hcon
    exact absurd (hcon ▸ hWF.wid_lt rowO hO) (not_lt.mpr hge)
  have hnorates : ∀ br ∈ db.box_rates, br.warehouse_id ≠ wid := by
    intro br hbr hcon
    exact absurd (hcon ▸ (hWF.br_lt br hbr).1) (not_lt.mpr hge)
  have hloc : getCurrentPeriodForWarehouse wid now db = none :=
    getCurrentPeriod_none_of_no_rows now hnorates
  have hcnt0 : rateRowCount db wid = 0 := by
    unfold rateRowCount
    rw [List.countP_eq_zero]
    intro br hbr
    simp only [beq_iff_eq]
    exact hnorates br hbr
  have hrowF : row ∈ (reconcileSnapshot pd now db).1.warehouses := by
    have hLfr := processLoop_frames pd.tariffPeriodEndDate now (ws'.zip pd.boxRates) db1
    rw [hloop] at hLfr
    rw [hF1, (saveBoxRates_frames rs db2).2.1, hLfr.2.1]
    exact hrowm
  have hpc : (processPair pd.tariffPeriodEndDate now db w1 r).2.2 = (1, 1) := by
    rcases processPair_cases pd.tariffPeriodEndDate now db w1 r hwid with
      ⟨p0', hloc', -, -⟩ | ⟨p0', hloc', -, heq⟩ | ⟨-, heq⟩
    · rw [hloc] at hloc'
      cases hloc'
    · rw [hloc] at hloc'
      cases hloc'
    · rw [heq]
  rcases reconcile_touched pd now db hWF hkeys hmem hwid with
    ⟨p0', hloc', -⟩ |
    ⟨p0', pidN, hloc', -⟩ |
    ⟨-, pidN, hgeN, hrowN, -, -, hfindS, -, hcount⟩
  · rw [hloc] at hloc'
    cases hloc'
  · rw [hloc] at hloc'
    cases hloc'
  · exact ⟨hge, hnotold, ⟨row, hrowF, hrowid, hrowg ▸ hkey1.symm ▸ rfl, hroww ▸ hkey2.symm ▸ rfl⟩,
      hloc, hcnt0, ⟨pidN, hgeN, hrowN, hfindS, by rw [hcount, hcnt0]⟩, hpc⟩

theorem c7_first_seen_creates_entity_period_rate_witness :
    exDb.nextId ≤ 3 ∧
    (∀ rowO ∈ exDb.warehouses, rowO.id ≠ 3) ∧
    (∃ row ∈ (reconcileSnapshot (convertWbDataToProcessedData exWbNew) 50 exDb).1.warehouses,
        row.id = 3 ∧ row.geo_name = (⟨some 3, "B", "V"⟩ : ProcessedWarehouse).geo_name ∧
        row.warehouse_name = (⟨some 3, "B", "V"⟩ : ProcessedWarehouse).warehouse_name) ∧
    getCurrentPeriodForWarehouse 3 50 exDb = none ∧
    rateRowCount exDb 3 = 0 ∧
    (∃ pidN, exDb.nextId ≤ pidN ∧
      periodRowById (reconcileSnapshot (convertWbDataToProcessedData exWbNew) 50 exDb).1
        pidN = some ⟨pidN, 50,
          some (convertWbDataToProcessedData exWbNew).tariffPeriodEndDate⟩ ∧
      (∃ br, findExistingRate
          (reconcileSnapshot (convertWbDataToProcessedData exWbNew) 50 exDb).1 pidN 3 =
          some br ∧ br.rates = (⟨none, none, exVec⟩ : ProcessedBoxRate).rates) ∧
      rateRowCount (reconcileSnapshot (convertWbDataToProcessedData exWbNew) 50 exDb).1 3
        = 1) ∧
    (processPair (convertWbDataToProcessedData exWbNew).tariffPeriodEndDate 50 exDb
      ⟨some 3, "B", "V"⟩ ⟨none, none, exVec⟩).2.2 = (1, 1) := by
  have hzip : (processWarehouses (convertWbDataToProcessedData exWbNew).warehouses
      exDb).1.zip (convertWbDataToProcessedData exWbNew).boxRates =
      [((⟨some 3, "B", "V"⟩ : ProcessedWarehouse),
        (⟨none, none, exVec⟩ : ProcessedBoxRate))] := by
    with_unfolding_all rfl
  exact c7_first_seen_creates_entity_period_rate
    (convertWbDataToProcessedData exWbNew) exDb 50
    ⟨⟨by decide, by decide, by decide, by decide, by decide⟩, by decide, by decide, by decide⟩
    (by decide)
    ⟨some 3, "B", "V"⟩ ⟨none, none, exVec⟩ 3
    (by rw [hzip]; exact List.mem_singleton.mpr rfl)
    rfl (by decide)

/-- C8: corrected.  The claim that the upsert-on-conflict path never
overwrites an existing `(warehouse_id, tariff_period_id)` row is false: the
match (extend) branch re-binds the same period and the upsert then merges
the incoming vector over the stored row (see the counterexample, where a
within-tolerance change is silently written through).  Amended statement:
whenever a run changes the stored vector of a pre-existing pair, that pair's
period is the active period the record re-bound, and the incoming vector —
which is what gets written — was judged within the 0.01 tolerance by the
comparator. -/
theorem c8_overwrite_only_on_tolerated_match
    (pd : ProcessedData) (db : DB) (now : Instant)
    (hWF : WF db) (hkeys : (pd.warehouses.map pwKey).Nodup)
    (wid pid : Nat) (e e' : BoxRateRow)
    (hpre : findExistingRate db pid wid = some e)
    (hpost : findExistingRate (reconcileSnapshot pd now db).1 pid wid = some e')
    (hdiff : e'.rates ≠ e.rates) :
    ∃ w1 r, (w1, r) ∈ (processWarehouses pd.warehouses db).1.zip pd.boxRates ∧
      w1.id = some wid ∧
      ∃ p0, getCurrentPeriodForWarehouse wid now db = some p0 ∧ p0.id = pid ∧
        checkRatesMatchForWarehouse pid wid r.rates db = true ∧ e'.rates = r.rates := by
  have hpre' := hpre
  unfold findExistingRate at hpre'
  have hm : e ∈ db.box_rates := List.mem_of_find?_eq_some hpre'
  have hf := List.find?_some hpre'
  simp only [Bool.and_eq_true, beq_iff_eq] at hf
  have hpidlt : pid < db.nextId := hf.1 ▸ (hWF.br_lt e hm).2
  by_cases hc : ∃ wr ∈ (processWarehouses pd.warehouses db).1.zip pd.boxRates,
      wr.1.id = some wid
  · obtain ⟨⟨w1, r⟩, hmemz, hwidz⟩ := hc
    rcases reconcile_touched pd now db hWF hkeys hmemz hwidz with
      ⟨p0, hloc, hchk, -, -, -, hfindS, hfindO, -⟩ |
      ⟨p0, pidN, hloc, -, hgeN, -, -, -, -, -, hfindO, -⟩ |
      ⟨hloc, pidN, hgeN, -, -, -, -, hfindO, -⟩
    · by_cases hne : pid = p0.id
      · subst hne
        obtain ⟨br, hfindbr, hbrr⟩ := hfindS
        rw [hpost] at hfindbr
        injection hfindbr with hbr
        exact ⟨w1, r, hmemz, hwidz, p0, hloc, rfl, hchk, by rw [hbr]; exact hbrr⟩
      · rw [hfindO pid hne, hpre] at hpost
        injection hpost with h
        exact absurd (by rw [← h]) hdiff
    · have hneN : pid ≠ pidN := fun hcon => absurd (hcon ▸ hpidlt) (not_lt.mpr hgeN)
      rw [hfindO pid hneN, hpre] at hpost
      injection hpost with h
      exact absurd (by rw [← h]) hdiff
    · have hneN : pid ≠ pidN := fun hcon => absurd (hcon ▸ hpidlt) (not_lt.mpr hgeN)
      rw [hfindO pid hneN, hpre] at hpost
      injection hpost with h
      exact absurd (by rw [← h]) hdiff
  · push_neg at hc
    have hun := reconcile_untouched pd now db hWF (fun wr hwr => hc wr hwr)
    rw [hun.2.2.1 pid, hpre] at hpost
    injection hpost with h
    exact absurd (by rw [← h]) hdiff

theorem c8_overwrite_only_on_tolerated_match_witness :
    ∃ w1 r,
      (w1, r) ∈ (processWarehouses
        (convertWbDataToProcessedData exWbClose).warehouses exDb).1.zip
        (convertWbDataToProcessedData exWbClose).boxRates ∧
      w1.id = some 0 ∧
      ∃ p0, getCurrentPeriodForWarehouse 0 50 exDb = some p0 ∧ p0.id = 1 ∧
        checkRatesMatchForWarehouse 1 0 r.rates exDb = true ∧
        (⟨2, 0, 1, exVecClose⟩ : BoxRateRow).rates = r.rates := by
  refine c8_overwrite_only_on_tolerated_match
    (convertWbDataToProcessedData exWbClose) exDb 50
    ⟨⟨by decide, by decide, by decide, by decide, by decide⟩, by decide, by decide, by decide⟩
    (by decide)
    0 1 exRateRow ⟨2, 0, 1, exVecClose⟩
    (by with_unfolding_all rfl) (by with_unfolding_all rfl) ?_
  intro h
  have h1 := congrArg (fun v => v.box_delivery_base) h
  simp [exRateRow, exVecClose, exVec, RateVec.ofRats] at h1
  norm_num at h1

lemma fieldMismatch_self (x : JsNum) : fieldMismatch x x = false := by
  cases x with
  | none => rfl
  | some q =>
    unfold fieldMismatch jsSub jsAbs jsGt
    simp only [sub_self, abs_zero, decide_eq_false_iff_not, not_lt]
    norm_num

lemma checkRates_self {db : DB} {pid wid : Nat} {e : BoxRateRow}
    (hfind : findExistingRate db pid wid = some e) (nr : RateVec) (heq : e.rates = nr) :
    checkRatesMatchForWarehouse pid wid nr db = true := by
  rw [checkRates_eq_all pid wid nr db e hfind]
  subst heq
  simp [fieldsToCompare, fieldMismatch_self]

lemma countP_eq_one_of_unique {l : List PeriodRow}
    (hnd : (l.map (fun p => p.id)).Nodup) (P : PeriodRow → Bool) (p : PeriodRow)
    (hp : p ∈ l) (hP : P p = true) (huni : ∀ q ∈ l, P q = true → q.id = p.id) :
    l.countP P = 1 := by
  rw [List.countP_eq_length_filter]
  have hnd' : ((l.filter P).map (fun p => p.id)).Nodup :=
    ((List.filter_sublist l).map (fun p => p.id)).nodup hnd
  have hmem : p ∈ l.filter P := List.mem_filter.mpr ⟨hp, hP⟩
  cases hfil : l.filter P with
  | nil => rw [hfil] at hmem; cases hmem
  | cons a t =>
    cases t with
    | nil => rfl
    | cons b t2 =>
      exfalso
      rw [hfil] at hnd'
      have hall : ∀ q ∈ l.filter P, q.id = p.id := by
        intro q hq
        obtain ⟨hql, hqP⟩ := List.mem_filter.mp hq
        exact huni q hql hqP
      have ha := hall a (hfil ▸ List.mem_cons_self _ _)
      have hb := hall b (hfil ▸ List.mem_cons_of_mem _ (List.mem_cons_self _ _))
      rw [List.map_cons, List.nodup_cons] at hnd'
      exact hnd'.1 ((ha.trans hb.symm) ▸ List.mem_map_of_mem (fun p => p.id)
        (List.mem_cons_self b t2))

/-- C4: confirmed.  When a run meets a warehouse whose active period's bound
vector equals the incoming one and no other attached period already ends at
the incoming horizon `H` (the state a previous run with a smaller horizon
leaves), the comparator reports a match, the active period's end is moved to
`H`, exactly one attached period ends at `H` afterwards, no rate row is
created, and the record's step reports +0 periods and +0 rates. -/
theorem c4_unchanged_rates_extend_only
    (pd : ProcessedData) (db : DB) (now : Instant)
    (hWF : WF db) (hkeys : (pd.warehouses.map pwKey).Nodup)
    (w1 : ProcessedWarehouse) (r : ProcessedBoxRate) (wid : Nat)
    (hmem : (w1, r) ∈ (processWarehouses pd.warehouses db).1.zip pd.boxRates)
    (hwid : w1.id = some wid)
    (p0 : PeriodRow)
    (hloc : getCurrentPeriodForWarehouse wid now db = some p0)
    (e : BoxRateRow)
    (hfind : findExistingRate db p0.id wid = some e)
    (heq : e.rates = r.rates)
    (hend : ∀ p ∈ db.tariff_periods, attachedB db wid p.id = true → p.id ≠ p0.id →
      p.end_date ≠ some pd.tariffPeriodEndDate) :
    checkRatesMatchForWarehouse p0.id wid r.rates db = true ∧
    periodRowById (reconcileSnapshot pd now db).1 p0.id =
      some { p0 with end_date := some pd.tariffPeriodEndDate } ∧
    attachedEndCount (reconcileSnapshot pd now db).1 wid pd.tariffPeriodEndDate = 1 ∧
    rateRowCount (reconcileSnapshot pd now db).1 wid = rateRowCount db wid ∧
    (processPair pd.tariffPeriodEndDate now db w1 r).2.2 = (0, 0) := by
  have hchk : checkRatesMatchForWarehouse p0.id wid r.rates db = true :=
    checkRates_self hfind r.rates heq
  have hpc : (processPair pd.tariffPeriodEndDate now db w1 r).2.2 = (0, 0) := by
    rcases processPair_cases pd.tariffPeriodEndDate now db w1 r hwid with
      ⟨p0', hloc', hchk', heq'⟩ | ⟨p0', hloc', hchk', heq'⟩ | ⟨hloc', heq'⟩
    · rw [heq']
    · rw [hloc] at hloc'
      injection hloc' with hloc'
      subst hloc'
      rw [hchk] at hchk'
      cases hchk'
    · rw [hloc] at hloc'
      cases hloc'
  rcases reconcile_touched pd now db hWF hkeys hmem hwid with
    ⟨p0', hloc', hchk', hrowP0, hframe, hattEq, hfindS, hfindO, hcount⟩ |
    ⟨p0', pidN, hloc', hchk', -⟩ |
    ⟨hloc', -⟩
  · rw [hloc] at hloc'
    injection hloc' with hloc'
    subst hloc'
    have hndF := reconcile_pid_nodup pd now db hWF
    obtain ⟨⟨br0, hbr0, hbw0, hbp0⟩, hrow00, hact0⟩ := getCurrentPeriod_some hloc
    have hatt0 : attachedB db wid p0.id = true :=
      attachedB_true_iff.mpr ⟨br0, hbr0, hbw0, hbp0⟩
    refine ⟨hchk, hrowP0, ?_, hcount, hpc⟩
    unfold attachedEndCount
    have hmemF := (periodRowById_mem hrowP0).1
    refine countP_eq_one_of_unique hndF _ { p0 with end_date := some pd.tariffPeriodEndDate }
      hmemF ?_ ?_
    · have hattF : attachedB (reconcileSnapshot pd now db).1 wid p0.id = true := by
        rw [hattEq p0.id]
        exact hatt0
      simp only [hattF, Bool.true_and, beq_iff_eq]
    · intro q hq hQ
      obtain ⟨hqatt, hqend⟩ := Bool.and_eq_true _ _ |>.mp hQ
      by_contra hne
      have hqattdb : attachedB db wid q.id = true := by
        rw [← hattEq q.id]
        exact hqatt
      have hqrowF : periodRowById (reconcileSnapshot pd now db).1 q.id = some q :=
        periodRowById_self hndF hq
      rw [hframe q.id hqattdb hne] at hqrowF
      have hqdb := (periodRowById_mem hqrowF).1
      simp only [beq_iff_eq] at hqend
      exact hend q hqdb hqattdb hne hqend
  · rw [hloc] at hloc'
    injection hloc' with hloc'
    subst hloc'
    rw [hchk] at hchk'
    cases hchk'
  · rw [hloc] at hloc'
    cases hloc'

theorem c4_unchanged_rates_extend_only_witness :
    checkRatesMatchForWarehouse exPeriod.id 0
      (⟨none, none, exVec⟩ : ProcessedBoxRate).rates exDb = true ∧
    periodRowById (reconcileSnapshot (convertWbDataToProcessedData exWbSame) 50 exDb).1
      exPeriod.id = some { exPeriod with
        end_date := some (convertWbDataToProcessedData exWbSame).tariffPeriodEndDate } ∧
    attachedEndCount (reconcileSnapshot (convertWbDataToProcessedData exWbSame) 50 exDb).1
      0 (convertWbDataToProcessedData exWbSame).tariffPeriodEndDate = 1 ∧
    rateRowCount (reconcileSnapshot (convertWbDataToProcessedData exWbSame) 50 exDb).1 0 =
      rateRowCount exDb 0 ∧
    (processPair (convertWbDataToProcessedData exWbSame).tariffPeriodEndDate 50 exDb
      ⟨some 0, "A", "W"⟩ ⟨none, none, exVec⟩).2.2 = (0, 0) := by
  have hzip : (processWarehouses (convertWbDataToProcessedData exWbSame).warehouses
      exDb).1.zip (convertWbDataToProcessedData exWbSame).boxRates =
      [((⟨some 0, "A", "W"⟩ : ProcessedWarehouse),
        (⟨none, none, exVec⟩ : ProcessedBoxRate))] := by
    with_unfolding_all rfl
  exact c4_unchanged_rates_extend_only (convertWbDataToProcessedData exWbSame) exDb 50
    ⟨⟨by decide, by decide, by decide, by decide, by decide⟩, by decide, by decide, by decide⟩
    (by decide)
    ⟨some 0, "A", "W"⟩ ⟨none, none, exVec⟩ 0
    (by rw [hzip]; exact List.mem_singleton.mpr rfl)
    rfl exPeriod (by with_unfolding_all rfl)
    exRateRow (by with_unfolding_all rfl) (by with_unfolding_all rfl)
    (by decide)
